import Mathlib

/-!
Verification development for the Deps-Harmony dependency-analysis core.

The TypeScript sources are shallowly embedded as executable Lean
definitions:

* JavaScript `Map` objects become insertion-ordered association lists
  (`mapSet` overwrites in place, `mapGet` returns the first binding),
  matching `Map.set` / `Map.get` / iteration-order semantics.
* The JavaScript `||` defaulting idiom on strings (`x || "d"`, where the
  empty string is falsy) is embedded as `jsOrStr`.
* `PackageNode.children` holds `PackageNode[]` references in the source;
  since hoisted nodes are shared (the graph is a DAG or even cyclic, see
  the design notes of the spec), the embedding stores the referenced
  nodes' `path` keys into the path-keyed arena `allNodes`.  By
  construction the node stored under key `k` has `path = k`, so the two
  representations are interchangeable.
* Asynchronous registry access (`NpmService` over `fetch`) is embedded
  by passing a pure snapshot `Registry : String → Option NpmPackageInfo`
  describing what each lookup returns during one analyzer run, and, for
  the cache-behaviour claims, by explicit cache state plus a
  `FetchOutcome` describing the network response.
* The `semver` npm library is embedded for the syntax subset exercised
  by this system: plain `MAJOR.MINOR.PATCH` versions and ranges of the
  forms `^v`, `~v`, `>=v` and exact `v`.  `semver.satisfies` returns
  `false` when the version or range does not parse, which the embedding
  mirrors; `semver.major` / `semver.gt` / `semver.lt` / `semver.compare`
  throw on unparseable input, so theorems that depend on them carry
  explicit parseability hypotheses.
-/

namespace DepsHarmony

/-- JavaScript `a || d` for strings: the empty string is falsy. -/
def jsOrStr (a : Option String) (d : String) : String :=
  match a with
  | none => d
  | some s => if s = "" then d else s

/-- Insertion-ordered map update, as JavaScript `Map.prototype.set`:
an existing binding is overwritten in place, a new key is appended. -/
def mapSet {α : Type} (m : List (String × α)) (k : String) (v : α) :
    List (String × α) :=
  match m with
  | [] => [(k, v)]
  | (k', v') :: rest =>
      if k' = k then (k, v) :: rest else (k', v') :: mapSet rest k v

/-- Lookup, as JavaScript `Map.prototype.get`: first binding wins. -/
def mapGet {α : Type} (m : List (String × α)) (k : String) : Option α :=
  match m with
  | [] => none
  | (k', v) :: rest => if k' = k then some v else mapGet rest k

/-- JavaScript `String.prototype.split("/")` on the character list:
splits at every separator occurrence, keeping empty segments
(`"".split("/") = [""]`, `"a/".split("/") = ["a",""]`). -/
def splitSlash : List Char → List (List Char)
  | [] => [[]]
  | c :: cs =>
      if c = '/' then [] :: splitSlash cs
      else
        match splitSlash cs with
        | [] => [[c]]
        | seg :: segs => (c :: seg) :: segs

/-- String-level wrapper for `splitSlash`. -/
def splitPath (s : String) : List String :=
  (splitSlash s.data).map (fun seg => String.mk seg)

/-- The value `pathParts[pathParts.length - 1]` used by the graph
builder; `splitSlash` never returns `[]`, so the default is dead. -/
def lastSegment (s : String) : String :=
  (splitPath s).getLastD ""

/-! ## Semantic versions (model of the `semver` npm library) -/

/-- A plain `MAJOR.MINOR.PATCH` semantic version. -/
structure SemVer where
  major : Nat
  minor : Nat
  patch : Nat
  deriving Repr, DecidableEq

/-- Split a character list at every occurrence of a separator,
keeping empty segments (JavaScript `String.prototype.split(sep)` for a
one-character separator). -/
def splitOnChar (sep : Char) : List Char → List (List Char)
  | [] => [[]]
  | c :: cs =>
      if c = sep then [] :: splitOnChar sep cs
      else
        match splitOnChar sep cs with
        | [] => [[c]]
        | seg :: segs => (c :: seg) :: segs

/-- Numeric value of a nonempty digit run, as a decimal parser. -/
def parseNatChars (cs : List Char) : Option Nat :=
  if cs ≠ [] ∧ cs.all Char.isDigit then
    some (cs.foldl (fun n c => n * 10 + (c.toNat - 48)) 0)
  else none

/-- Parse a plain `MAJOR.MINOR.PATCH` version from characters. -/
def parseSemVerChars (cs : List Char) : Option SemVer :=
  match splitOnChar '.' cs with
  | [a, b, c] =>
      match parseNatChars a, parseNatChars b, parseNatChars c with
      | some x, some y, some z => some ⟨x, y, z⟩
      | _, _, _ => none
  | _ => none

/-- Parse a plain `MAJOR.MINOR.PATCH` version string. -/
def parseSemVer (s : String) : Option SemVer :=
  parseSemVerChars s.data

/-- Numeric precedence order on versions. -/
def semverLe (a b : SemVer) : Bool :=
  if a.major ≠ b.major then a.major < b.major
  else if a.minor ≠ b.minor then a.minor < b.minor
  else a.patch ≤ b.patch

def semverLt (a b : SemVer) : Bool :=
  semverLe a b && !(a == b)

/-- The range operators accepted by this embedding of `semver`. -/
inductive RangeOp where
  | caret
  | tilde
  | gte
  | exact
  deriving Repr, DecidableEq

/-- Parse a range string of one of the forms `^v`, `~v`, `>=v`, `v`. -/
def parseRange (s : String) : Option (RangeOp × SemVer) :=
  match s.data with
  | '^' :: rest => (parseSemVerChars rest).map (fun v => (RangeOp.caret, v))
  | '~' :: rest => (parseSemVerChars rest).map (fun v => (RangeOp.tilde, v))
  | '>' :: '=' :: rest =>
      (parseSemVerChars rest).map (fun v => (RangeOp.gte, v))
  | cs => (parseSemVerChars cs).map (fun v => (RangeOp.exact, v))

/-- Range satisfaction for a parsed version against a parsed range,
with node-semver caret/tilde semantics. -/
def satisfiesRange (v : SemVer) (r : RangeOp × SemVer) : Bool :=
  let b := r.2
  match r.1 with
  | RangeOp.exact => v == b
  | RangeOp.gte => semverLe b v
  | RangeOp.tilde =>
      semverLe b v && v.major == b.major && v.minor == b.minor
  | RangeOp.caret =>
      if b.major > 0 then semverLe b v && v.major == b.major
      else if b.minor > 0 then
        semverLe b v && v.major == 0 && v.minor == b.minor
      else v == b

/-- Model of `semver.satisfies(version, range)`: `false` whenever the
version or the range fails to parse. -/
def semverSatisfies (version range : String) : Bool :=
  match parseSemVer version, parseRange range with
  | some v, some r => satisfiesRange v r
  | _, _ => false

/-- Model of `semver.major(version)`; the library throws on an
unparseable version, so this is partial via `Option`. -/
def semverMajor (version : String) : Option Nat :=
  (parseSemVer version).map SemVer.major

/-- Model of `semver.gt` on version strings; the library throws on
unparseable input, which theorems exclude by hypothesis. -/
def semverGtStr (a b : String) : Bool :=
  match parseSemVer a, parseSemVer b with
  | some va, some vb => semverLt vb va
  | _, _ => false

/-- Model of `semver.lt` on version strings. -/
def semverLtStr (a b : String) : Bool :=
  match parseSemVer a, parseSemVer b with
  | some va, some vb => semverLt va vb
  | _, _ => false

/-! ## Data model (src/models) -/

/-- One installed package instance.  `childrenPaths` embeds the
source's `children: PackageNode[]` as the referenced nodes' arena keys
(see the header comment). -/
structure PackageNode where
  name : String
  version : String
  path : String
  resolved : String
  integrity : String
  isDev : Bool
  dependencies : List (String × String)
  peerDependencies : List (String × String)
  childrenPaths : List String
  deriving Repr, DecidableEq

/-- The dependency graph: root plus the path-keyed arena. -/
structure DependencyGraph where
  root : PackageNode
  allNodes : List (String × PackageNode)
  deriving Repr, DecidableEq

/-- One lockfile flat-map entry.  Absent JSON maps are embedded as
empty lists; `version`, `resolved`, `integrity` keep the JS
absent-or-falsy defaulting via `Option` plus `jsOrStr`. -/
structure PackageEntry where
  version : Option String := none
  resolved : Option String := none
  integrity : Option String := none
  dependencies : List (String × String) := []
  peerDependencies : List (String × String) := []
  deriving Repr, DecidableEq

/-- The manifest document (`package.json`). -/
structure ManifestDoc where
  name : Option String := none
  version : Option String := none
  dependencies : List (String × String) := []
  devDependencies : List (String × String) := []
  deriving Repr, DecidableEq

/-- The lockfile document (`package-lock.json`).  A missing `packages`
field is the empty map (`packageLockJson.packages || {}`). -/
structure LockfileDoc where
  lockfileVersion : Option Int := none
  packages : List (String × PackageEntry) := []
  deriving Repr, DecidableEq

/-- The two fatal graph-construction errors of the spec's taxonomy.
The source throws `Error("Lockfile version 1 is not supported. …")`
resp. `Error("Root package not found in lockfile")`. -/
inductive BuildError where
  | UnsupportedFormat
  | MissingRoot
  deriving Repr, DecidableEq

/-! ## GraphService (src/services/graph.service.ts) -/

/-- `packageLockJson.lockfileVersion || 1`: absent or `0` (falsy)
defaults to `1`. -/
def effectiveLockfileVersion (v : Option Int) : Int :=
  match v with
  | none => 1
  | some n => if n = 0 then 1 else n

/-- GraphService.isDevDependency: a package is dev only when it is a
direct installation (exactly two path segments) and its name maps to a
truthy range in the manifest's `devDependencies`. -/
def isDevDependency (packageName : String) (packageJson : ManifestDoc)
    (packagePath : String) : Bool :=
  if (splitPath packagePath).length = 2 then
    match packageJson.devDependencies.lookup packageName with
    | some range => range ≠ ""
    | none => false
  else
    false

/-- First-pass node construction for one flat-map entry (the loop body
of GraphService.buildGraph).  The empty-path entry becomes the root and
takes name/version from the manifest. -/
def mkNode (packageJson : ManifestDoc) (packagePath : String)
    (entry : PackageEntry) : PackageNode :=
  if packagePath = "" then
    { name := jsOrStr packageJson.name "root"
      version := jsOrStr packageJson.version "0.0.0"
      path := ""
      resolved := jsOrStr entry.resolved ""
      integrity := jsOrStr entry.integrity ""
      isDev := false
      dependencies := entry.dependencies
      peerDependencies := entry.peerDependencies
      childrenPaths := [] }
  else
    let packageName := lastSegment packagePath
    { name := packageName
      version := jsOrStr entry.version "unknown"
      path := packagePath
      resolved := jsOrStr entry.resolved ""
      integrity := jsOrStr entry.integrity ""
      isDev := isDevDependency packageName packageJson packagePath
      dependencies := entry.dependencies
      peerDependencies := entry.peerDependencies
      childrenPaths := [] }

/-- First pass of GraphService.buildGraph: build every node into the
path-keyed map. -/
def firstPass (packageJson : ManifestDoc)
    (packages : List (String × PackageEntry)) :
    List (String × PackageNode) :=
  packages.foldl
    (fun m kv => mapSet m kv.1 (mkNode packageJson kv.1 kv.2)) []

/-- The ancestor indices visited by the hoisting loop
`for (let i = pathParts.length - 2; i >= 0; i -= 2)`, given a starting
index `i ≥ 0`. -/
def hoistIndices (i : Nat) : List Nat :=
  (List.range (i / 2 + 1)).map (fun j => i - 2 * j)

/-- The candidate path tried at hoisting index `i`:
`pathParts.slice(0, i + 1).join("/") + "/node_modules/" + depName`. -/
def hoistedPathAt (pathParts : List String) (depName : String)
    (i : Nat) : String :=
  String.intercalate "/" (pathParts.take (i + 1)) ++
    "/node_modules/" ++ depName

/-- The `expectedPath` computed by GraphService.findChildNode. -/
def expectedChildPath (parentPath depName : String) : String :=
  if parentPath = "" then "node_modules/" ++ depName
  else parentPath ++ "/node_modules/" ++ depName

/-- The hoisting-loop index list of GraphService.findChildNode (empty
when the loop's start index is negative). -/
def hoistCandidates (parentPath : String) : List Nat :=
  if (splitPath parentPath).length ≥ 2 then
    hoistIndices ((splitPath parentPath).length - 2)
  else []

/-- GraphService.findChildNode: try the direct nested path, then the
hoisting loop's candidates, then the root-level path. -/
def findChildNode (parentPath depName : String)
    (allNodes : List (String × PackageNode)) : Option PackageNode :=
  match mapGet allNodes (expectedChildPath parentPath depName) with
  | some childNode => some childNode
  | none =>
      match
        (hoistCandidates parentPath).findSome?
          (fun i => mapGet allNodes (hoistedPathAt (splitPath parentPath) depName i))
      with
      | some childNode => some childNode
      | none => mapGet allNodes ("node_modules/" ++ depName)

/-- Second pass of GraphService.buildGraph: for every node, resolve
each name in its `dependencies` map and append the found child.  The
source mutates `children` on the live map; only `children` fields are
mutated there, which `findChildNode` never reads, so mapping over a
snapshot is equivalent.  `resolvedChildren` is the per-node loop body. -/
def resolvedChildren (m : List (String × PackageNode))
    (packagePath : String) (node : PackageNode) : List String :=
  node.dependencies.foldl
    (fun acc dep =>
      match findChildNode packagePath dep.1 m with
      | some childNode => acc ++ [childNode.path]
      | none => acc)
    []

def secondPass (m : List (String × PackageNode)) :
    List (String × PackageNode) :=
  m.map (fun kv => (kv.1, { kv.2 with childrenPaths := resolvedChildren m kv.1 kv.2 }))

/-- GraphService.buildGraph. -/
def buildGraph (packageJson : ManifestDoc) (packageLockJson : LockfileDoc) :
    Except BuildError DependencyGraph :=
  let packages := packageLockJson.packages
  let lockfileVersion := effectiveLockfileVersion packageLockJson.lockfileVersion
  if lockfileVersion < 2 then
    Except.error BuildError.UnsupportedFormat
  else
    let allNodes := secondPass (firstPass packageJson packages)
    match mapGet allNodes "" with
    | none => Except.error BuildError.MissingRoot
    | some rootNode => Except.ok { root := rootNode, allNodes := allNodes }

/-- GraphService.calculateMaxDepth, fuel-indexed: the source recurses
on `children` without a visited set, so on a graph whose child edges
form a reachable cycle the recursion never returns; `none` models fuel
exhaustion.  A dangling child path (impossible for built graphs) also
gives `none`. -/
def calculateMaxDepth (m : List (String × PackageNode)) :
    Nat → PackageNode → Nat → Option Nat
  | 0, _, _ => none
  | fuel + 1, node, currentDepth =>
      if node.childrenPaths = [] then some currentDepth
      else
        node.childrenPaths.foldl
          (fun acc childPath =>
            match acc, mapGet m childPath with
            | some best, some child =>
                match calculateMaxDepth m fuel child (currentDepth + 1) with
                | some childDepth => some (max best childDepth)
                | none => none
            | _, _ => none)
          (some currentDepth)

/-- The statistics record of GraphService.getGraphStats. -/
structure GraphStats where
  totalNodes : Nat
  directDependencies : Nat
  devDependencies : Nat
  maxDepth : Nat
  deriving Repr, DecidableEq

/-- GraphService.getGraphStats, fuel-indexed through
`calculateMaxDepth`. -/
def getGraphStats (fuel : Nat) (graph : DependencyGraph) :
    Option GraphStats :=
  let totalNodes := graph.allNodes.length
  let directDependencies :=
    (graph.allNodes.filter
      (fun kv => kv.1 ≠ "" ∧ (splitPath kv.1).length = 2)).length
  let devDependencies :=
    (graph.allNodes.filter
      (fun kv =>
        (kv.1 ≠ "" ∧ (splitPath kv.1).length = 2) ∧ kv.2.isDev)).length
  (calculateMaxDepth graph.allNodes fuel graph.root 0).map
    (fun maxDepth =>
      { totalNodes := totalNodes
        directDependencies := directDependencies
        devDependencies := devDependencies
        maxDepth := maxDepth })

/-! ## NpmService (src/services/npm.service.ts) -/

/-- The per-version metadata this system reads from a registry
document. -/
structure VersionMeta where
  peerDependencies : List (String × String) := []
  deriving Repr, DecidableEq

/-- The registry package document (`NpmPackageInfo` in the source):
all published versions keyed by version string, plus dist-tags and
publication times. -/
structure NpmPackageInfo where
  name : String := ""
  versions : List (String × VersionMeta) := []
  distTags : List (String × String) := []
  time : List (String × String) := []
  deriving Repr, DecidableEq

/-- A pure snapshot of what `NpmService.getPackageInfo` answers for
each package name during one analyzer run (`none` = not found or any
soft failure). -/
def Registry : Type := String → Option NpmPackageInfo

/-- Group a character list into maximal runs of digits / non-digits. -/
def charRuns : List Char → List (List Char)
  | [] => []
  | c :: cs =>
      match charRuns cs with
      | [] => [[c]]
      | [] :: rest => [c] :: [] :: rest
      | (d :: ds) :: rest =>
          if c.isDigit = d.isDigit then (c :: d :: ds) :: rest
          else [c] :: (d :: ds) :: rest

/-- Numeric value of a digit run. -/
def digitsToNat (cs : List Char) : Nat :=
  cs.foldl (fun n c => n * 10 + (c.toNat - 48)) 0

/-- One collation chunk: a number or a plain character run. -/
def toChunk (run : List Char) : Sum Nat (List Char) :=
  match run with
  | [] => Sum.inr []
  | c :: _ => if c.isDigit then Sum.inl (digitsToNat run) else Sum.inr run

/-- Character-list comparison by code points. -/
def cmpCharList : List Char → List Char → Ordering
  | [], [] => Ordering.eq
  | [], _ :: _ => Ordering.lt
  | _ :: _, [] => Ordering.gt
  | a :: as, b :: bs =>
      match compare a.val b.val with
      | Ordering.eq => cmpCharList as bs
      | o => o

/-- Chunk comparison: numbers compare numerically; a number sorts
before a non-numeric run. -/
def cmpChunk : Sum Nat (List Char) → Sum Nat (List Char) → Ordering
  | Sum.inl m, Sum.inl n => compare m n
  | Sum.inr a, Sum.inr b => cmpCharList a b
  | Sum.inl _, Sum.inr _ => Ordering.lt
  | Sum.inr _, Sum.inl _ => Ordering.gt

/-- Lexicographic comparison of chunk lists. -/
def cmpChunks : List (Sum Nat (List Char)) → List (Sum Nat (List Char)) →
    Ordering
  | [], [] => Ordering.eq
  | [], _ :: _ => Ordering.lt
  | _ :: _, [] => Ordering.gt
  | a :: as, b :: bs =>
      match cmpChunk a b with
      | Ordering.eq => cmpChunks as bs
      | o => o

/-- Model of `a.localeCompare(b, undefined, { numeric: true })`:
natural (numeric-aware) string comparison. -/
def cmpNatural (a b : String) : Ordering :=
  cmpChunks ((charRuns a.data).map toChunk) ((charRuns b.data).map toChunk)

/-- Insert into a descending-sorted list (stable). -/
def insertDescNatural (v : String) : List String → List String
  | [] => [v]
  | x :: xs =>
      if cmpNatural v x = Ordering.lt then x :: insertDescNatural v xs
      else v :: x :: xs

/-- The sort in `NpmService.getAvailableVersions`:
`.sort((a, b) => b.localeCompare(a, undefined, { numeric: true }))`,
newest (numerically largest) first. -/
def sortVersionsDesc (l : List String) : List String :=
  l.foldr insertDescNatural []

/-- NpmService.getAvailableVersions over a registry snapshot: the keys
of the `versions` map, sorted descending; `[]` when the package lookup
fails. -/
def getAvailableVersions (reg : Registry) (packageName : String) :
    List String :=
  match reg packageName with
  | none => []
  | some info => sortVersionsDesc (info.versions.map Prod.fst)

/-- NpmService.getLatestVersion: `packageInfo["dist-tags"].latest ||
null`. -/
def getLatestVersion (reg : Registry) (packageName : String) :
    Option String :=
  match reg packageName with
  | none => none
  | some info =>
      match info.distTags.lookup "latest" with
      | some s => if s = "" then none else some s
      | none => none

/-! ## AnalyzerService (src/services/analyzer.service.ts) -/

inductive ConflictType where
  | PeerDependency
  | DuplicateSingleton
  deriving Repr, DecidableEq

/-- A remediation solution; the source also carries an `action`
closure (an asynchronous logging stub), which has no observable pure
behaviour and is outside the embedding. -/
structure Solution where
  description : String
  deriving Repr, DecidableEq

structure Conflict where
  type : ConflictType
  packageName : String
  message : String
  nodes : List PackageNode
  solutions : List Solution
  deriving Repr, DecidableEq

/-- The configurable singleton list `AnalyzerService.SINGLETON_PACKAGES`. -/
def SINGLETON_PACKAGES : List String :=
  ["react", "vue", "angular", "@angular/core", "jquery", "lodash",
   "moment", "axios"]

/-- AnalyzerService.findInstalledPeerDependency: prefer the root-level
installation, else the first node with that name in map order. -/
def findInstalledPeerDependency (graph : DependencyGraph)
    (peerName : String) : Option PackageNode :=
  match mapGet graph.allNodes ("node_modules/" ++ peerName) with
  | some rootLevelNode => some rootLevelNode
  | none =>
      (graph.allNodes.find? (fun kv => kv.2.name == peerName)).map Prod.snd

/-- AnalyzerService.findAllVersionsOfPackage. -/
def findAllVersionsOfPackage (graph : DependencyGraph)
    (packageName : String) : List PackageNode :=
  (graph.allNodes.filter (fun kv => kv.2.name == packageName)).map Prod.snd

/-- AnalyzerService.generateMissingPeerSolutions (registry access via
the snapshot; the surrounding try/catch cannot fire in the pure
model). -/
def generateMissingPeerSolutions (reg : Registry)
    (peerName peerVersionRange : String) : List Solution :=
  let availableVersions := getAvailableVersions reg peerName
  let compatibleVersions :=
    availableVersions.filter (fun v => semverSatisfies v peerVersionRange)
  let sols :=
    match compatibleVersions with
    | [] => []
    | latestCompatible :: _ =>
        [⟨"Install " ++ peerName ++ "@" ++ latestCompatible ++
          " (latest compatible version)"⟩]
  match getLatestVersion reg peerName with
  | some latestVersion =>
      if ¬ compatibleVersions.contains latestVersion then
        sols ++
          [⟨"Install " ++ peerName ++ "@" ++ latestVersion ++
            " (latest version - may require updating dependent packages)"⟩]
      else sols
  | none => sols

/-- AnalyzerService.generatePeerVersionConflictSolutions. -/
def generatePeerVersionConflictSolutions (reg : Registry)
    (peerName requiredRange installedVersion : String) : List Solution :=
  let availableVersions := getAvailableVersions reg peerName
  let compatibleVersions :=
    availableVersions.filter (fun v => semverSatisfies v requiredRange)
  match compatibleVersions with
  | [] => []
  | latestCompatible :: _ =>
      if semverGtStr latestCompatible installedVersion then
        [⟨"Upgrade " ++ peerName ++ " from " ++ installedVersion ++
          " to " ++ latestCompatible⟩]
      else if semverLtStr latestCompatible installedVersion then
        [⟨"Downgrade " ++ peerName ++ " from " ++ installedVersion ++
          " to " ++ latestCompatible⟩]
      else []

/-- The body of the peer-dependency loop of
AnalyzerService.findPeerDependencyConflicts for one `(peerName, range)`
entry of one non-root node: at most one conflict per entry. -/
def peerEntryConflict (reg : Registry) (graph : DependencyGraph)
    (node : PackageNode) (peerName peerVersionRange : String) :
    Option Conflict :=
  match findInstalledPeerDependency graph peerName with
  | none =>
      some
        { type := ConflictType.PeerDependency
          packageName := peerName
          message :=
            node.name ++ "@" ++ node.version ++
              " requires peer dependency " ++ peerName ++ "@" ++
              peerVersionRange ++ ", but it is not installed."
          nodes := [node]
          solutions :=
            generateMissingPeerSolutions reg peerName peerVersionRange }
  | some installedPeerNode =>
      if semverSatisfies installedPeerNode.version peerVersionRange then
        none
      else
        some
          { type := ConflictType.PeerDependency
            packageName := peerName
            message :=
              node.name ++ "@" ++ node.version ++
                " requires peer dependency " ++ peerName ++ "@" ++
                peerVersionRange ++ ", but " ++ peerName ++ "@" ++
                installedPeerNode.version ++ " is installed."
            nodes := [node, installedPeerNode]
            solutions :=
              generatePeerVersionConflictSolutions reg peerName
                peerVersionRange installedPeerNode.version }

/-- AnalyzerService.findPeerDependencyConflicts: iterate all nodes in
map order, skip the root, and push the conflict (if any) for every
peer-dependency entry. -/
def findPeerDependencyConflicts (reg : Registry)
    (graph : DependencyGraph) : List Conflict :=
  graph.allNodes.foldl
    (fun conflicts kv =>
      if kv.1 = "" then conflicts
      else
        kv.2.peerDependencies.foldl
          (fun cs pd =>
            match peerEntryConflict reg graph kv.2 pd.1 pd.2 with
            | some c => cs ++ [c]
            | none => cs)
          conflicts)
    []

/-- Stable insertion into a version-descending node list (the
comparator `semver.compare(b.version, a.version)`; unparseable
versions, on which the library would throw, compare as equal here and
are excluded by hypothesis in the theorems). -/
def cmpSemVerStr (a b : String) : Ordering :=
  match parseSemVer a, parseSemVer b with
  | some va, some vb =>
      if semverLt va vb then Ordering.lt
      else if va == vb then Ordering.eq
      else Ordering.gt
  | _, _ => Ordering.eq

def insertNodeDesc (n : PackageNode) : List PackageNode → List PackageNode
  | [] => [n]
  | x :: xs =>
      if cmpSemVerStr n.version x.version = Ordering.gt then n :: x :: xs
      else x :: insertNodeDesc n xs

/-- The sort `conflictingNodes.sort((a, b) => semver.compare(b.version,
a.version))` in generateSingletonConflictSolutions.  JavaScript's sort
mutates the array in place, so the conflict's `nodes` field (bound to
the same array) ends up in this order as well. -/
def sortNodesByVersionDesc (l : List PackageNode) : List PackageNode :=
  l.foldr insertNodeDesc []

/-- JavaScript `new Set(list)` as an insertion-ordered list: first
occurrences, in order. -/
def jsSet {α : Type} [DecidableEq α] (l : List α) : List α :=
  l.foldl (fun acc x => if x ∈ acc then acc else acc ++ [x]) []

/-- AnalyzerService.generateSingletonConflictSolutions. -/
def generateSingletonConflictSolutions (reg : Registry)
    (packageName : String) (conflictingNodes : List PackageNode) :
    List Solution :=
  match sortNodesByVersionDesc conflictingNodes with
  | [] => []
  | latestVersion :: _ =>
      let sols :=
        [⟨"Consolidate to " ++ packageName ++ "@" ++
          latestVersion.version ++ " (remove duplicates)"⟩]
      match getLatestVersion reg packageName with
      | some latestAvailable =>
          if semverGtStr latestAvailable latestVersion.version then
            sols ++
              [⟨"Upgrade all instances to " ++ packageName ++ "@" ++
                latestAvailable ++ " (latest available)"⟩]
          else sols
      | none => sols

/-- The distinct installed major versions of a package, in first-seen
order (`new Set(installedVersions.map(n => semver.major(n.version)))`);
`semver.major` throws on an unparseable version, which `filterMap`
skips here and the theorems exclude by hypothesis. -/
def singletonMajors (graph : DependencyGraph) (packageName : String) :
    List Nat :=
  jsSet
    ((findAllVersionsOfPackage graph packageName).filterMap
      (fun n => semverMajor n.version))

/-- The body of AnalyzerService.findDuplicateSingletonConflicts for
one singleton name: at most one conflict. -/
def singletonEntryConflict (reg : Registry) (graph : DependencyGraph)
    (singletonPackage : String) : Option Conflict :=
  let installedVersions := findAllVersionsOfPackage graph singletonPackage
  if installedVersions.length > 1 then
    if (singletonMajors graph singletonPackage).length > 1 then
      some
        { type := ConflictType.DuplicateSingleton
          packageName := singletonPackage
          message :=
            "Multiple incompatible versions of " ++ singletonPackage ++
              " detected: " ++
              String.intercalate ", "
                (installedVersions.map
                  (fun n => n.version ++ " (" ++ n.path ++ ")")) ++
              ". This may cause runtime issues."
          nodes := sortNodesByVersionDesc installedVersions
          solutions :=
            generateSingletonConflictSolutions reg singletonPackage
              installedVersions }
    else none
  else none

/-- AnalyzerService.findDuplicateSingletonConflicts. -/
def findDuplicateSingletonConflicts (reg : Registry)
    (graph : DependencyGraph) : List Conflict :=
  SINGLETON_PACKAGES.foldl
    (fun conflicts p =>
      match singletonEntryConflict reg graph p with
      | some c => conflicts ++ [c]
      | none => conflicts)
    []

/-- AnalyzerService.findConflicts: peer conflicts first, then
singleton conflicts. -/
def findConflicts (reg : Registry) (graph : DependencyGraph) :
    List Conflict :=
  findPeerDependencyConflicts reg graph ++
    findDuplicateSingletonConflicts reg graph

/-! ## NpmService.getPackageInfo cache behaviour -/

/-- What the network returns for one `fetch` of a package document:
a parsed success body, a 404, another non-success HTTP status (the
source then throws inside its own `try`, so control reaches the
`catch`), or a network failure (the `fetch`/`json` promise rejects). -/
inductive FetchOutcome where
  | success : NpmPackageInfo → FetchOutcome
  | notFound : FetchOutcome
  | httpError : Nat → FetchOutcome
  | networkError : FetchOutcome
  deriving Repr, DecidableEq

/-- Result of one `NpmService.getPackageInfo` call: the returned value,
the cache afterwards, and whether a network fetch was performed. -/
structure GetPackageInfoRun where
  result : Option NpmPackageInfo
  cache : List (String × NpmPackageInfo)
  fetched : Bool
  deriving Repr, DecidableEq

/-- NpmService.getPackageInfo as a pure state transformer over the
in-memory cache.  Every non-success branch returns `none` through the
function's own `catch`; nothing escapes the boundary (the embedding is
a total function). -/
def getPackageInfo (cache : List (String × NpmPackageInfo))
    (packageName : String) (outcome : FetchOutcome) : GetPackageInfoRun :=
  match mapGet cache packageName with
  | some cached => { result := some cached, cache := cache, fetched := false }
  | none =>
      match outcome with
      | FetchOutcome.success info =>
          { result := some info
            cache := mapSet cache packageName info
            fetched := true }
      | FetchOutcome.notFound =>
          { result := none, cache := cache, fetched := true }
      | FetchOutcome.httpError _ =>
          { result := none, cache := cache, fetched := true }
      | FetchOutcome.networkError =>
          { result := none, cache := cache, fetched := true }

/-! ## SuggestionService (src/services/suggestion.service.ts) -/

structure PackageSuggestion where
  packageName : String
  suggestedVersion : String
  reason : String
  peerDependencies : List (String × String)
  deriving Repr, DecidableEq

structure CompatibilityResult where
  compatible : Bool
  suggestions : List PackageSuggestion
  conflicts : List String
  installCommand : String
  deriving Repr, DecidableEq

/-- Add one contributed range to the peer-dependency map
(`Map<string, Set<string>>`): sets deduplicate, insertion order is
kept. -/
def addPeerRange (m : List (String × List String)) (peerName range : String) :
    List (String × List String) :=
  match m with
  | [] => [(peerName, [range])]
  | (k, rs) :: rest =>
      if k = peerName then
        (k, if rs.contains range then rs else rs ++ [range]) :: rest
      else (k, rs) :: addPeerRange rest peerName range

/-- State accumulated by step 1 of
SuggestionService.suggestCompatiblePackages. -/
structure SuggestState where
  suggestions : List PackageSuggestion
  conflicts : List String
  peerDependencyMap : List (String × List String)
  deriving Repr, DecidableEq

/-- Step 1 of suggestCompatiblePackages: per requested package, fetch
its info, record a conflict message on lookup failure, else collect the
latest version's peer ranges and push a suggestion. -/
def collectSuggestions (reg : Registry) (packageNames : List String) :
    SuggestState :=
  packageNames.foldl
    (fun st packageName =>
      match reg packageName with
      | none =>
          { st with
              conflicts :=
                st.conflicts ++
                  ["Package " ++ packageName ++ " not found in npm registry"] }
      | some info =>
          match jsOrStr (info.distTags.lookup "latest") "" with
          | "" =>
              { st with
                  conflicts :=
                    st.conflicts ++
                      ["No latest version found for " ++ packageName] }
          | latestVersion =>
              let peerDeps :=
                match info.versions.lookup latestVersion with
                | some meta => meta.peerDependencies
                | none => []
              let peerMap :=
                peerDeps.foldl
                  (fun m pd => addPeerRange m pd.1 pd.2)
                  st.peerDependencyMap
              { suggestions :=
                  st.suggestions ++
                    [{ packageName := packageName
                       suggestedVersion := latestVersion
                       reason := "Latest stable version"
                       peerDependencies := peerDeps }]
                conflicts := st.conflicts
                peerDependencyMap := peerMap })
    { suggestions := [], conflicts := [], peerDependencyMap := [] }

/-- SuggestionService.findCompatibleVersion: first version (newest to
oldest) satisfying every contributed range, else null. -/
def findCompatibleVersion (reg : Registry) (packageName : String)
    (versionRanges : List String) : Option String :=
  (getAvailableVersions reg packageName).find?
    (fun version => versionRanges.all (fun range => semverSatisfies version range))

/-- The conflict message pushed when no version satisfies all
contributed ranges. -/
def peerConflictMessage (peerName : String) (rangesArray : List String) :
    String :=
  "Conflicting peer dependency requirements for " ++ peerName ++ ": " ++
    String.intercalate ", " rangesArray

/-- One iteration of step 2 of suggestCompatiblePackages (the loop
body over a `peerDependencyMap` entry, threading the suggestion list
and the pushed peer-conflict messages). -/
def resolveStep (reg : Registry)
    (acc : List PackageSuggestion × List String)
    (entry : String × List String) :
    List PackageSuggestion × List String :=
  if entry.2.length > 1 then
    match findCompatibleVersion reg entry.1 entry.2 with
    | none => (acc.1, acc.2 ++ [peerConflictMessage entry.1 entry.2])
    | some compatibleVersion =>
        if ¬ acc.1.any (fun s => s.packageName == entry.1) then
          (acc.1 ++
            [{ packageName := entry.1
               suggestedVersion := compatibleVersion
               reason := "Required peer dependency"
               peerDependencies := [] }],
           acc.2)
        else (acc.1, acc.2)
  else acc

/-- Step 2 of suggestCompatiblePackages: for every peer name with more
than one distinct contributed range, either add the jointly compatible
version as a suggestion (if not already suggested) or push a hard
conflict message. -/
def resolvePeerConflicts (reg : Registry)
    (entries : List (String × List String))
    (suggestions : List PackageSuggestion) :
    List PackageSuggestion × List String :=
  entries.foldl (resolveStep reg) (suggestions, [])

/-- SuggestionService.generateInstallCommand. -/
def generateInstallCommand (suggestions : List PackageSuggestion) : String :=
  match suggestions with
  | [] => ""
  | _ =>
      "npm install " ++
        String.intercalate " "
          (suggestions.map (fun s => s.packageName ++ "@" ++ s.suggestedVersion))

/-- SuggestionService.suggestCompatiblePackages (the outer try/catch
cannot fire in the pure model). -/
def suggestCompatiblePackages (reg : Registry)
    (packageNames : List String) : CompatibilityResult :=
  let st := collectSuggestions reg packageNames
  let step2 := resolvePeerConflicts reg st.peerDependencyMap st.suggestions
  let conflicts := st.conflicts ++ step2.2
  { compatible := conflicts.length = 0
    suggestions := step2.1
    conflicts := conflicts
    installCommand := generateInstallCommand step2.1 }

/-! ## FixService.parseSolutionDescription (src/services/fix.service.ts)

The two template regexes
`/(Upgrade|Downgrade)\s+(.+?)\s+from\s+.+?\s+to\s+(.+?)$/` and
`/Install\s+(.+?)@(.+?)\s+/` are embedded by a small backtracking
matcher specialised to the constructs they use: literals, greedy
`\s+`, lazy `(.+?)` (capturing) and `.+?` (non-capturing), and the
end-of-input anchor `$`.  `String.prototype.match` is unanchored and
returns the leftmost match; alternation tries `Upgrade` before
`Downgrade` at each start position. -/

/-- JavaScript `\s` (the whitespace characters relevant here). -/
def isWsChar (c : Char) : Bool :=
  c = ' ' || c = '\t' || c = '\n' || c = '\r' ||
    c = Char.ofNat 12 || c = Char.ofNat 11 || c = Char.ofNat 160

/-- JavaScript `.` without the `s` flag: any character except line
terminators. -/
def isDotChar (c : Char) : Bool :=
  ¬ (c = '\n' || c = '\r' || c.val = 0x2028 || c.val = 0x2029)

/-- One item of a regex pattern, restricted to the constructs used by
the two templates. -/
inductive RItem where
  | lit : List Char → RItem
  | ws : RItem
  | lazyGroup : RItem
  | lazyAny : RItem
  | eos : RItem
  deriving Repr, DecidableEq

/-- First success of `f` over a candidate list. -/
def firstSome {α : Type} (f : Nat → Option α) : List Nat → Option α
  | [] => none
  | k :: ks =>
      match f k with
      | some r => some r
      | none => firstSome f ks

/-- Lazy candidate lengths `[1, …, n]` (shortest first). -/
def lazyKs (n : Nat) : List Nat :=
  (List.range n).map (fun j => j + 1)

/-- Greedy candidate lengths `[n, …, 1]` (longest first). -/
def greedyKs (n : Nat) : List Nat :=
  (List.range n).reverse.map (fun j => j + 1)

/-- Backtracking matcher: match the pattern items at the start of
`cs`, returning the captured groups in order (trailing input may
remain). -/
def matchItems : List RItem → List Char → Option (List (List Char))
  | [], _ => some []
  | RItem.lit l :: rest, cs =>
      if cs.take l.length = l then matchItems rest (cs.drop l.length)
      else none
  | RItem.ws :: rest, cs =>
      firstSome (fun k => matchItems rest (cs.drop k))
        (greedyKs (cs.takeWhile isWsChar).length)
  | RItem.lazyGroup :: rest, cs =>
      firstSome
        (fun k =>
          if (cs.take k).all isDotChar then
            (matchItems rest (cs.drop k)).map (fun gs => cs.take k :: gs)
          else none)
        (lazyKs cs.length)
  | RItem.lazyAny :: rest, cs =>
      firstSome
        (fun k =>
          if (cs.take k).all isDotChar then matchItems rest (cs.drop k)
          else none)
        (lazyKs cs.length)
  | RItem.eos :: rest, cs =>
      if cs = [] then matchItems rest cs else none

/-- The shared tail of the first template after the leading
alternative: `\s+(.+?)\s+from\s+.+?\s+to\s+(.+?)$`. -/
def upgradeTail : List RItem :=
  [RItem.ws, RItem.lazyGroup, RItem.ws, RItem.lit "from".data, RItem.ws,
   RItem.lazyAny, RItem.ws, RItem.lit "to".data, RItem.ws,
   RItem.lazyGroup, RItem.eos]

/-- Try both alternatives of
`(Upgrade|Downgrade)\s+(.+?)\s+from\s+.+?\s+to\s+(.+?)$` at one start
position. -/
def matchUpgradeAt (cs : List Char) : Option (List (List Char)) :=
  match matchItems (RItem.lit "Upgrade".data :: upgradeTail) cs with
  | some gs => some gs
  | none => matchItems (RItem.lit "Downgrade".data :: upgradeTail) cs

/-- Unanchored leftmost search for the first template. -/
def searchUpgrade : List Char → Option (List (List Char))
  | [] => matchUpgradeAt []
  | c :: cs =>
      match matchUpgradeAt (c :: cs) with
      | some gs => some gs
      | none => searchUpgrade cs

/-- The second template `Install\s+(.+?)@(.+?)\s+`. -/
def installPattern : List RItem :=
  [RItem.lit "Install".data, RItem.ws, RItem.lazyGroup,
   RItem.lit "@".data, RItem.lazyGroup, RItem.ws]

/-- Unanchored leftmost search for the second template. -/
def searchInstall : List Char → Option (List (List Char))
  | [] => matchItems installPattern []
  | c :: cs =>
      match matchItems installPattern (c :: cs) with
      | some gs => some gs
      | none => searchInstall cs

/-- The record extracted from a parseable solution description. -/
structure FixParams where
  packageName : String
  newVersion : String
  isDev : Bool
  deriving Repr, DecidableEq

/-- FixService.parseSolutionDescription: try the Upgrade/Downgrade
template (captures 2 and 3), then the Install template (captures 1 and
2); `none` when neither matches — the function never throws (it is
total), and the caller must then prompt for manual action. -/
def parseSolutionDescription (description : String) : Option FixParams :=
  match searchUpgrade description.data with
  | some [pkg, ver] =>
      some { packageName := String.mk pkg
             newVersion := String.mk ver
             isDev := false }
  | some _ => none
  | none =>
      match searchInstall description.data with
      | some [pkg, ver] =>
          some { packageName := String.mk pkg
                 newVersion := String.mk ver
                 isDev := false }
      | _ => none

/-! ## Concrete fixtures used by witnesses and counterexamples -/

/-- Fallback node for total graph extraction (never used on the
fixtures below, where construction succeeds). -/
def emptyNode : PackageNode :=
  { name := "", version := "", path := "", resolved := "", integrity := ""
    isDev := false, dependencies := [], peerDependencies := []
    childrenPaths := [] }

/-- Total extraction of a built graph. -/
def graphOf (packageJson : ManifestDoc) (packageLockJson : LockfileDoc) :
    DependencyGraph :=
  match buildGraph packageJson packageLockJson with
  | Except.ok g => g
  | Except.error _ => { root := emptyNode, allNodes := [] }

/-- An empty registry snapshot: every lookup fails softly. -/
def emptyRegistry : Registry := fun _ => none

/-- Manifest shared by the graph fixtures. -/
def exManifest : ManifestDoc :=
  { name := some "example-app", version := some "1.0.0" }

/-- The hoisting scenario of the spec's testable property: a parent at
`a/node_modules/b` requires `c`; `a/node_modules/b/node_modules/c` is
absent but `a/node_modules/c` exists. -/
def hoistLock : LockfileDoc :=
  { lockfileVersion := some 3
    packages :=
      [("", {}),
       ("a/node_modules/b",
        { version := some "1.0.0", dependencies := [("c", "^1.0.0")] }),
       ("a/node_modules/c", { version := some "1.0.0" })] }

def hoistGraph : DependencyGraph := graphOf exManifest hoistLock

/-- A graph with a peer requirement `react@^17.0.0` and an installed
root-level `react@17.2.0`. -/
def peerOkLock : LockfileDoc :=
  { lockfileVersion := some 3
    packages :=
      [("", { dependencies := [("app-lib", "^1.0.0"), ("react", "^17.0.0")] }),
       ("node_modules/app-lib",
        { version := some "1.0.0"
          peerDependencies := [("react", "^17.0.0")] }),
       ("node_modules/react", { version := some "17.2.0" })] }

def peerOkGraph : DependencyGraph := graphOf exManifest peerOkLock

/-- The same graph but with `react@18.0.0` installed. -/
def peerBadLock : LockfileDoc :=
  { lockfileVersion := some 3
    packages :=
      [("", { dependencies := [("app-lib", "^1.0.0"), ("react", "^18.0.0")] }),
       ("node_modules/app-lib",
        { version := some "1.0.0"
          peerDependencies := [("react", "^17.0.0")] }),
       ("node_modules/react", { version := some "18.0.0" })] }

def peerBadGraph : DependencyGraph := graphOf exManifest peerBadLock

/-- The same requiring node with no `react` installed anywhere. -/
def peerMissingLock : LockfileDoc :=
  { lockfileVersion := some 3
    packages :=
      [("", { dependencies := [("app-lib", "^1.0.0")] }),
       ("node_modules/app-lib",
        { version := some "1.0.0"
          peerDependencies := [("react", "^17.0.0")] })] }

def peerMissingGraph : DependencyGraph := graphOf exManifest peerMissingLock

/-- The requiring node and the installed peer of the fixtures above. -/
def appLibOkNode : PackageNode :=
  (mapGet peerOkGraph.allNodes "node_modules/app-lib").getD emptyNode

def reactOkNode : PackageNode :=
  (mapGet peerOkGraph.allNodes "node_modules/react").getD emptyNode

def appLibBadNode : PackageNode :=
  (mapGet peerBadGraph.allNodes "node_modules/app-lib").getD emptyNode

def reactBadNode : PackageNode :=
  (mapGet peerBadGraph.allNodes "node_modules/react").getD emptyNode

def appLibMissingNode : PackageNode :=
  (mapGet peerMissingGraph.allNodes "node_modules/app-lib").getD emptyNode

/-- Three installed `react` instances at `16.8.0`, `17.0.0`, `17.0.2`
(two distinct majors). -/
def singletonDupLock : LockfileDoc :=
  { lockfileVersion := some 3
    packages :=
      [("", { dependencies := [("a", "^1.0.0"), ("b", "^1.0.0")] }),
       ("node_modules/react", { version := some "16.8.0" }),
       ("node_modules/a", { version := some "1.0.0" }),
       ("node_modules/a/node_modules/react", { version := some "17.0.0" }),
       ("node_modules/b", { version := some "1.0.0" }),
       ("node_modules/b/node_modules/react", { version := some "17.0.2" })] }

def singletonDupGraph : DependencyGraph := graphOf exManifest singletonDupLock

/-- Three installed `react` instances all within major `17`. -/
def singletonSameLock : LockfileDoc :=
  { lockfileVersion := some 3
    packages :=
      [("", { dependencies := [("a", "^1.0.0"), ("b", "^1.0.0")] }),
       ("node_modules/react", { version := some "17.0.0" }),
       ("node_modules/a", { version := some "1.0.0" }),
       ("node_modules/a/node_modules/react", { version := some "17.0.1" }),
       ("node_modules/b", { version := some "1.0.0" }),
       ("node_modules/b/node_modules/react", { version := some "17.0.2" })] }

def singletonSameGraph : DependencyGraph := graphOf exManifest singletonSameLock

/-- A lockfile whose entries `a` and `b` depend on each other; both are
hoisted to the root level, so the built children edges form a cycle
reachable from the root. -/
def cyclicLock : LockfileDoc :=
  { lockfileVersion := some 3
    packages :=
      [("", { dependencies := [("a", "^1.0.0")] }),
       ("node_modules/a",
        { version := some "1.0.0", dependencies := [("b", "^1.0.0")] }),
       ("node_modules/b",
        { version := some "1.0.0", dependencies := [("a", "^1.0.0")] })] }

def cyclicGraph : DependencyGraph := graphOf exManifest cyclicLock

/-- The two mutually dependent nodes of `cyclicGraph`. -/
def cycNodeA : PackageNode :=
  (mapGet cyclicGraph.allNodes "node_modules/a").getD emptyNode

def cycNodeB : PackageNode :=
  (mapGet cyclicGraph.allNodes "node_modules/b").getD emptyNode

/-- A lockfile with a scoped package installed at
`node_modules/@angular/core`. -/
def scopedLock : LockfileDoc :=
  { lockfileVersion := some 3
    packages :=
      [("", { dependencies := [("@angular/core", "^17.0.0")] }),
       ("node_modules/@angular/core", { version := some "17.0.0" })] }

def scopedGraph : DependencyGraph := graphOf exManifest scopedLock

/-- A legacy (v1) lockfile. -/
def v1Lock : LockfileDoc :=
  { lockfileVersion := some 1, packages := [("", {})] }

/-- A v2 lockfile with no empty-path entry. -/
def noRootLock : LockfileDoc :=
  { lockfileVersion := some 2
    packages := [("node_modules/x", { version := some "1.0.0" })] }

/-- A registry document for `react` with a 16.x and a 17.x line. -/
def reactInfo : NpmPackageInfo :=
  { name := "react"
    versions :=
      [("16.14.0", {}), ("16.8.0", {}), ("17.0.0", {}), ("17.0.2", {})]
    distTags := [("latest", "17.0.2")] }

/-- Two requested packages whose latest versions contribute the
conflicting peer ranges `^16.0.0` and `^17.0.0` for `react`. -/
def suggestRegistry : Registry := fun name =>
  if name = "alpha" then
    some
      { name := "alpha"
        versions := [("1.0.0", { peerDependencies := [("react", "^16.0.0")] })]
        distTags := [("latest", "1.0.0")] }
  else if name = "beta" then
    some
      { name := "beta"
        versions := [("2.0.0", { peerDependencies := [("react", "^17.0.0")] })]
        distTags := [("latest", "2.0.0")] }
  else if name = "react" then some reactInfo
  else none

/-- A registry snapshot answering only `react`. -/
def reactRegistry : Registry := fun name =>
  if name = "react" then some reactInfo else none

/-! ## Predicates used in the claim statements -/

/-- Nodes reachable from the root along `children` edges (in the
arena embedding a child edge is a path that resolves in `allNodes`). -/
inductive Reachable (g : DependencyGraph) : PackageNode → Prop where
  | root : Reachable g g.root
  | child {n c : PackageNode} {q : String} :
      Reachable g n → q ∈ n.childrenPaths →
      mapGet g.allNodes q = some c → Reachable g c

/-- Depth boundedness of the `children` relation below a node: every
child path resolves and is bounded at the next level down.  A graph
with a children cycle reachable from the root admits no bound. -/
inductive BoundedDepth (m : List (String × PackageNode)) :
    PackageNode → Nat → Prop where
  | mk {node : PackageNode} {f : Nat} :
      (∀ q ∈ node.childrenPaths, (mapGet m q).isSome) →
      (∀ q c, q ∈ node.childrenPaths → mapGet m q = some c →
        BoundedDepth m c f) →
      BoundedDepth m node (f + 1)

/-- A plain identifier-or-version string as they occur in solution
descriptions: nonempty, no whitespace, no line terminators. -/
def PlainStr (s : String) : Prop :=
  s.data ≠ [] ∧ ∀ c ∈ s.data, isWsChar c = false ∧ isDotChar c = true

/-- A plain string that additionally contains no `@`, as required of
the package-name capture of the `Install <pkg>@<version>` template. -/
def PlainStrNoAt (s : String) : Prop :=
  PlainStr s ∧ ∀ c ∈ s.data, c ≠ '@'

/-- `w` occurs nowhere as a contiguous substring of `l` (every window
of length `|w|` differs from `w`). -/
def NoSub (w l : List Char) : Prop :=
  ∀ i, (l.drop i).take w.length ≠ w

/-! ## Basic lemmas about the JavaScript-style helpers -/

theorem mapGet_mapSet_self {α : Type} (m : List (String × α)) (k : String)
    (v : α) : mapGet (mapSet m k v) k = some v := by
  induction m with
  | nil => simp [mapSet, mapGet]
  | cons kv rest ih =>
      by_cases h : kv.1 = k
      · simp [mapSet, mapGet, h]
      · simp [mapSet, mapGet, h, ih]

theorem mapGet_mapSet_ne {α : Type} (m : List (String × α)) {k k' : String}
    (v : α) (h : k' ≠ k) : mapGet (mapSet m k v) k' = mapGet m k' := by
  induction m with
  | nil =>
      simp only [mapSet, mapGet]
      rw [if_neg (fun hc => h hc.symm)]
  | cons kv rest ih =>
      simp only [mapSet]
      by_cases hk : kv.1 = k
      · rw [if_pos hk]
        simp only [mapGet]
        rw [if_neg (fun hc : k = k' => h hc.symm),
          if_neg (fun hc : kv.1 = k' => h (hk ▸ hc).symm)]
      · rw [if_neg hk]
        simp only [mapGet]
        by_cases hk' : kv.1 = k'
        · rw [if_pos hk', if_pos hk']
        · rw [if_neg hk', if_neg hk', ih]

theorem mapGet_mem {α : Type} {m : List (String × α)} {k : String} {v : α}
    (h : mapGet m k = some v) : (k, v) ∈ m := by
  induction m with
  | nil => simp [mapGet] at h
  | cons kv rest ih =>
      simp only [mapGet] at h
      by_cases hk : kv.1 = k
      · rw [if_pos hk] at h
        have hkv : kv = (k, v) := by
          cases kv
          simp only at hk
          simp only [Option.some.injEq] at h
          simp [hk, h]
        rw [hkv]
        exact List.mem_cons_self _ _
      · rw [if_neg hk] at h
        exact List.mem_cons_of_mem _ (ih h)

theorem mem_mapSet {α : Type} {m : List (String × α)} {k : String} {v : α}
    {kv : String × α} (h : kv ∈ mapSet m k v) : kv = (k, v) ∨ kv ∈ m := by
  induction m with
  | nil => simp [mapSet] at h; simp [h]
  | cons hd rest ih =>
      simp only [mapSet] at h
      by_cases hk : hd.1 = k
      · rw [if_pos hk] at h
        rcases List.mem_cons.mp h with h | h
        · exact Or.inl h
        · exact Or.inr (List.mem_cons_of_mem _ h)
      · rw [if_neg hk] at h
        rcases List.mem_cons.mp h with h | h
        · exact Or.inr (h ▸ List.mem_cons_self _ _)
        · rcases ih h with h | h
          · exact Or.inl h
          · exact Or.inr (List.mem_cons_of_mem _ h)

theorem splitSlash_ne_nil (cs : List Char) : splitSlash cs ≠ [] := by
  induction cs with
  | nil => simp [splitSlash]
  | cons c cs ih =>
      simp only [splitSlash]
      split
      · simp
      · cases h : splitSlash cs with
        | nil => simp
        | cons seg segs => simp

theorem mem_splitSlash_no_slash (cs : List Char) :
    ∀ seg ∈ splitSlash cs, '/' ∉ seg := by
  induction cs with
  | nil => intro seg h; simp [splitSlash] at h; simp [h]
  | cons c cs ih =>
      intro seg h
      simp only [splitSlash] at h
      by_cases hc : c = '/'
      · simp [hc] at h
        rcases h with h | h
        · simp [h]
        · exact ih seg h
      · simp [hc] at h
        cases hsp : splitSlash cs with
        | nil => exact absurd hsp (splitSlash_ne_nil cs)
        | cons s0 ss =>
            rw [hsp] at h
            simp at h
            rcases h with h | h
            · subst h
              intro hmem
              simp at hmem
              rcases hmem with hmem | hmem
              · exact hc hmem.symm
              · exact ih s0 (by rw [hsp]; exact List.mem_cons_self _ _) hmem
            · exact ih seg (by rw [hsp]; exact List.mem_cons_of_mem _ h)

theorem splitPath_ne_nil (s : String) : splitPath s ≠ [] := by
  simp [splitPath, splitSlash_ne_nil]

theorem getLastD_mem {α : Type} (l : List α) (d : α) (h : l ≠ []) :
    l.getLastD d ∈ l := by
  induction l generalizing d with
  | nil => exact absurd rfl h
  | cons a l ih =>
      cases hl : l with
      | nil => simp [List.getLastD]
      | cons b m =>
          have hmem := ih (d := a) (by simp [hl])
          rw [← hl, List.getLastD_cons]
          exact List.mem_cons_of_mem a hmem

theorem lastSegment_mem (s : String) : lastSegment s ∈ splitPath s :=
  getLastD_mem (splitPath s) "" (splitPath_ne_nil s)

theorem lastSegment_no_slash (s : String) :
    ∀ c ∈ (lastSegment s).data, c ≠ '/' := by
  intro c hc habs
  subst habs
  have hmem := lastSegment_mem s
  unfold splitPath at hmem
  rcases List.mem_map.mp hmem with ⟨seg, hseg, hmk⟩
  have hin : '/' ∈ seg := by
    have hdata : ((String.mk seg).data : List Char) = seg := rfl
    rw [← hdata, hmk]
    exact hc
  exact mem_splitSlash_no_slash s.data seg hseg hin

/-- Folding an append-step equals appending the flat map. -/
theorem foldl_append_flatMap {α β : Type} (h : α → List β) (l : List α)
    (init : List β) :
    l.foldl (fun acc x => acc ++ h x) init = init ++ l.flatMap h := by
  induction l generalizing init with
  | nil => simp
  | cons x xs ih => simp [ih, List.flatMap_cons]

theorem firstSome_append {α : Type} (f : Nat → Option α) (xs ys : List Nat) :
    firstSome f (xs ++ ys) =
      match firstSome f xs with
      | some r => some r
      | none => firstSome f ys := by
  induction xs with
  | nil => simp [firstSome]
  | cons k ks ih =>
      simp only [List.cons_append, firstSome]
      cases f k with
      | none => simpa using ih
      | some r => simp

theorem firstSome_all_none {α : Type} (f : Nat → Option α) (ks : List Nat)
    (h : ∀ k ∈ ks, f k = none) : firstSome f ks = none := by
  induction ks with
  | nil => rfl
  | cons k ks ih =>
      simp only [firstSome, h k (List.mem_cons_self _ _)]
      exact ih (fun x hx => h x (List.mem_cons_of_mem _ hx))

/-! ## Graph-construction lemmas -/

theorem mkNode_path (pj : ManifestDoc) (k : String) (e : PackageEntry) :
    (mkNode pj k e).path = k := by
  unfold mkNode
  split
  · rename_i h; simp [h]
  · rfl

theorem mkNode_isDev_root (pj : ManifestDoc) (e : PackageEntry) :
    (mkNode pj "" e).isDev = false := by
  simp [mkNode]

theorem mkNode_name (pj : ManifestDoc) {k : String} (e : PackageEntry)
    (h : k ≠ "") : (mkNode pj k e).name = lastSegment k := by
  unfold mkNode
  rw [if_neg h]

theorem firstPass_shape_aux (pj : ManifestDoc)
    (ps : List (String × PackageEntry)) (acc : List (String × PackageNode))
    (hinv : ∀ kv ∈ acc, ∃ e, kv.2 = mkNode pj kv.1 e) :
    ∀ kv ∈ ps.foldl
        (fun m kv => mapSet m kv.1 (mkNode pj kv.1 kv.2)) acc,
      ∃ e, kv.2 = mkNode pj kv.1 e := by
  induction ps generalizing acc with
  | nil => exact hinv
  | cons p ps ih =>
      intro kv hkv
      refine ih (mapSet acc p.1 (mkNode pj p.1 p.2)) ?_ kv hkv
      intro kv' hkv'
      rcases mem_mapSet hkv' with h | h
      · exact ⟨p.2, by rw [h]⟩
      · exact hinv kv' h

theorem firstPass_shape (pj : ManifestDoc)
    (ps : List (String × PackageEntry)) :
    ∀ kv ∈ firstPass pj ps, ∃ e, kv.2 = mkNode pj kv.1 e :=
  firstPass_shape_aux pj ps [] (by simp)

theorem firstPass_get_none_aux (pj : ManifestDoc)
    (ps : List (String × PackageEntry)) (acc : List (String × PackageNode))
    (k : String) (hacc : mapGet acc k = none)
    (hps : ∀ kv ∈ ps, kv.1 ≠ k) :
    mapGet
      (ps.foldl (fun m kv => mapSet m kv.1 (mkNode pj kv.1 kv.2)) acc) k =
      none := by
  induction ps generalizing acc with
  | nil => exact hacc
  | cons p ps ih =>
      refine ih (mapSet acc p.1 (mkNode pj p.1 p.2)) ?_
        (fun kv hkv => hps kv (List.mem_cons_of_mem _ hkv))
      rw [mapGet_mapSet_ne acc _
        (fun hc => hps p (List.mem_cons_self _ _) hc.symm)]
      exact hacc

theorem firstPass_get_none (pj : ManifestDoc)
    (ps : List (String × PackageEntry)) (k : String)
    (hps : ∀ kv ∈ ps, kv.1 ≠ k) : mapGet (firstPass pj ps) k = none :=
  firstPass_get_none_aux pj ps [] k rfl hps

theorem mapGet_map_keyed {α β : Type} (f : String → α → β)
    (l : List (String × α)) (k : String) :
    mapGet (l.map (fun kv => (kv.1, f kv.1 kv.2))) k =
      (mapGet l k).map (f k) := by
  induction l with
  | nil => rfl
  | cons kv rest ih =>
      simp only [List.map_cons, mapGet]
      by_cases h : kv.1 = k
      · rw [if_pos h, if_pos h, h]
        rfl
      · rw [if_neg h, if_neg h, ih]

theorem mapGet_secondPass (m : List (String × PackageNode)) (k : String) :
    mapGet (secondPass m) k =
      (mapGet m k).map
        (fun n => { n with childrenPaths := resolvedChildren m k n }) := by
  unfold secondPass
  exact mapGet_map_keyed
    (fun k n => { n with childrenPaths := resolvedChildren m k n }) m k

theorem findSome?_mem {α β : Type} (f : α → Option β) (l : List α)
    (b : β) (h : l.findSome? f = some b) : ∃ a ∈ l, f a = some b := by
  induction l with
  | nil => simp [List.findSome?] at h
  | cons a l ih =>
      rw [List.findSome?_cons] at h
      cases hf : f a with
      | some r =>
          rw [hf] at h
          simp only at h
          exact ⟨a, List.mem_cons_self _ _, hf.trans h⟩
      | none =>
          rw [hf] at h
          simp only at h
          rcases ih h with ⟨x, hx, hfx⟩
          exact ⟨x, List.mem_cons_of_mem _ hx, hfx⟩

theorem findChildNode_exists_key (p d : String)
    (m : List (String × PackageNode)) (c : PackageNode)
    (h : findChildNode p d m = some c) : ∃ k, mapGet m k = some c := by
  unfold findChildNode at h
  cases h1 : mapGet m (expectedChildPath p d) with
  | some n =>
      rw [h1] at h
      simp only [Option.some.injEq] at h
      exact ⟨expectedChildPath p d, h1.trans (by rw [h])⟩
  | none =>
      rw [h1] at h
      simp only at h
      cases h2 :
          (hoistCandidates p).findSome?
            (fun i => mapGet m (hoistedPathAt (splitPath p) d i)) with
      | some n =>
          rw [h2] at h
          simp only [Option.some.injEq] at h
          rcases findSome?_mem _ _ _ h2 with ⟨i, _, hfi⟩
          exact ⟨hoistedPathAt (splitPath p) d i, hfi.trans (by rw [h])⟩
      | none =>
          rw [h2] at h
          simp only at h
          exact ⟨"node_modules/" ++ d, h⟩

theorem firstPass_path_inv (pj : ManifestDoc)
    (ps : List (String × PackageEntry)) (k : String) (n : PackageNode)
    (h : mapGet (firstPass pj ps) k = some n) : n.path = k := by
  rcases firstPass_shape pj ps (k, n) (mapGet_mem h) with ⟨e, he⟩
  simp only at he
  rw [he, mkNode_path]

theorem mem_resolvedChildren_aux (m : List (String × PackageNode))
    (p : String) (deps : List (String × String)) (init : List String)
    (q : String)
    (h : q ∈ deps.foldl
        (fun acc dep =>
          match findChildNode p dep.1 m with
          | some childNode => acc ++ [childNode.path]
          | none => acc)
        init) :
    q ∈ init ∨ ∃ d c, findChildNode p d m = some c ∧ q = c.path := by
  induction deps generalizing init with
  | nil => exact Or.inl h
  | cons dep deps ih =>
      simp only [List.foldl_cons] at h
      cases hf : findChildNode p dep.1 m with
      | some c =>
          rw [hf] at h
          rcases ih (init ++ [c.path]) h with hq | hq
          · rcases List.mem_append.mp hq with hq | hq
            · exact Or.inl hq
            · simp at hq
              exact Or.inr ⟨dep.1, c, hf, hq⟩
          · exact Or.inr hq
      | none =>
          rw [hf] at h
          exact ih init h

theorem mem_resolvedChildren (m : List (String × PackageNode))
    (p : String) (n : PackageNode) (q : String)
    (h : q ∈ resolvedChildren m p n) :
    ∃ d c, findChildNode p d m = some c ∧ q = c.path := by
  rcases mem_resolvedChildren_aux m p n.dependencies [] q h with hq | hq
  · simp at hq
  · exact hq

/-- Unpacking a successful `buildGraph` run. -/
theorem buildGraph_ok (pj : ManifestDoc) (ld : LockfileDoc)
    (g : DependencyGraph) (h : buildGraph pj ld = Except.ok g) :
    g.allNodes = secondPass (firstPass pj ld.packages) ∧
      mapGet g.allNodes "" = some g.root := by
  unfold buildGraph at h
  by_cases hv : effectiveLockfileVersion ld.lockfileVersion < 2
  · rw [if_pos hv] at h
    exact absurd h (by simp)
  · rw [if_neg hv] at h
    simp only at h
    cases hr : mapGet (secondPass (firstPass pj ld.packages)) "" with
    | none => rw [hr] at h; exact absurd h (by simp)
    | some rootNode =>
        rw [hr] at h
        simp only [Except.ok.injEq] at h
        subst h
        exact ⟨rfl, hr⟩

theorem build_path_inv (pj : ManifestDoc) (ld : LockfileDoc)
    (g : DependencyGraph) (h : buildGraph pj ld = Except.ok g)
    (k : String) (n : PackageNode) (hk : mapGet g.allNodes k = some n) :
    n.path = k := by
  rcases buildGraph_ok pj ld g h with ⟨hall, _⟩
  rw [hall, mapGet_secondPass] at hk
  cases h0 : mapGet (firstPass pj ld.packages) k with
  | none => rw [h0] at hk; simp at hk
  | some n0 =>
      rw [h0] at hk
      simp only [Option.map_some', Option.some.injEq] at hk
      have := firstPass_path_inv pj ld.packages k n0 h0
      rw [← hk]
      exact this

/-- Every entry of a built graph is the second-pass completion of a
first-pass node for its own key. -/
theorem build_mem_shape (pj : ManifestDoc) (ld : LockfileDoc)
    (g : DependencyGraph) (h : buildGraph pj ld = Except.ok g) :
    ∀ kv ∈ g.allNodes,
      ∃ e, kv.2 =
        { mkNode pj kv.1 e with
            childrenPaths :=
              resolvedChildren (firstPass pj ld.packages) kv.1
                (mkNode pj kv.1 e) } := by
  intro kv hkv
  rcases buildGraph_ok pj ld g h with ⟨hall, _⟩
  rw [hall] at hkv
  unfold secondPass at hkv
  rcases List.mem_map.mp hkv with ⟨kv0, hkv0, heq⟩
  rcases firstPass_shape pj ld.packages kv0 hkv0 with ⟨e, he⟩
  refine ⟨e, ?_⟩
  rw [← heq]
  simp only
  rw [he]

/-- C3: a lockfile version below 2 (or absent) makes graph
construction fail with `UnsupportedFormat` and never yields a graph;
a version ≥ 2 with no empty-path entry in the flat map fails with
`MissingRoot`. -/
theorem buildGraph_error_contract (pj : ManifestDoc) (ld : LockfileDoc) :
    ((ld.lockfileVersion = none ∨ ∃ v, ld.lockfileVersion = some v ∧ v < 2) →
      buildGraph pj ld = Except.error BuildError.UnsupportedFormat) ∧
    (∀ v, ld.lockfileVersion = some v → 2 ≤ v →
      (∀ kv ∈ ld.packages, kv.1 ≠ "") →
      buildGraph pj ld = Except.error BuildError.MissingRoot) := by
  constructor
  · intro h
    have heff : effectiveLockfileVersion ld.lockfileVersion < 2 := by
      rcases h with h | ⟨v, hv, hlt⟩
      · rw [h]; norm_num [effectiveLockfileVersion]
      · rw [hv]
        show (if v = 0 then (1 : Int) else v) < 2
        by_cases hz : v = 0
        · rw [if_pos hz]; norm_num
        · rw [if_neg hz]; exact hlt
    unfold buildGraph
    rw [if_pos heff]
  · intro v hv h2 hnone
    have heff : ¬ effectiveLockfileVersion ld.lockfileVersion < 2 := by
      rw [hv]
      show ¬ (if v = 0 then (1 : Int) else v) < 2
      have hz : v ≠ 0 := by omega
      rw [if_neg hz]
      omega
    unfold buildGraph
    rw [if_neg heff]
    simp only
    have hget : mapGet (secondPass (firstPass pj ld.packages)) "" = none := by
      rw [mapGet_secondPass, firstPass_get_none pj ld.packages "" hnone]
      rfl
    rw [hget]

/-- Witness for C3 at concrete inputs: a v1 lockfile is rejected as
`UnsupportedFormat`; a v2 lockfile without an empty-path entry is
rejected as `MissingRoot`. -/
theorem buildGraph_error_contract_witness :
    buildGraph exManifest v1Lock = Except.error BuildError.UnsupportedFormat ∧
    buildGraph exManifest noRootLock = Except.error BuildError.MissingRoot :=
  ⟨(buildGraph_error_contract exManifest v1Lock).1
      (Or.inr ⟨1, rfl, by norm_num⟩),
   (buildGraph_error_contract exManifest noRootLock).2 2 rfl (by norm_num)
      (by decide)⟩

/-- C8: in every graph `buildGraph` returns, the empty-string key maps
to the root, the root is not a dev dependency, every child edge
resolves in `allNodes`, and every node reachable from the root via
children edges is stored in `allNodes` under its own path. -/
theorem buildGraph_invariants (pj : ManifestDoc) (ld : LockfileDoc)
    (g : DependencyGraph) (h : buildGraph pj ld = Except.ok g) :
    mapGet g.allNodes "" = some g.root ∧
    g.root.isDev = false ∧
    (∀ k n, mapGet g.allNodes k = some n →
      ∀ q ∈ n.childrenPaths, (mapGet g.allNodes q).isSome) ∧
    (∀ n, Reachable g n → mapGet g.allNodes n.path = some n) := by
  obtain ⟨hall, hroot⟩ := buildGraph_ok pj ld g h
  refine ⟨hroot, ?_, ?_, ?_⟩
  · rcases build_mem_shape pj ld g h ("", g.root) (mapGet_mem hroot) with ⟨e, he⟩
    simp only at he
    rw [he]
    exact mkNode_isDev_root pj e
  · intro k n hk q hq
    have hk' := hk
    rw [hall, mapGet_secondPass] at hk'
    cases h0 : mapGet (firstPass pj ld.packages) k with
    | none => rw [h0] at hk'; simp at hk'
    | some n0 =>
        rw [h0] at hk'
        simp only [Option.map_some', Option.some.injEq] at hk'
        rw [← hk'] at hq
        have hq' : q ∈ resolvedChildren (firstPass pj ld.packages) k n0 := hq
        rcases mem_resolvedChildren _ _ _ _ hq' with ⟨d, c, hfc, hqc⟩
        rcases findChildNode_exists_key _ _ _ _ hfc with ⟨k', hk2⟩
        have hcp : c.path = k' := firstPass_path_inv pj ld.packages k' c hk2
        have : mapGet (firstPass pj ld.packages) q = some c := by
          rw [hqc, hcp]; exact hk2
        rw [hall, mapGet_secondPass, this]
        rfl
  · intro n hn
    induction hn with
    | root =>
        have hp : g.root.path = "" := build_path_inv pj ld g h "" g.root hroot
        rw [hp]
        exact hroot
    | child hr hq hc ih =>
        rename_i n' c q
        have hp : c.path = q := build_path_inv pj ld g h q c hc
        rw [hp]
        exact hc

/-- Witness for C8 on a concrete built graph. -/
theorem buildGraph_invariants_witness :
    mapGet hoistGraph.allNodes "" = some hoistGraph.root ∧
    hoistGraph.root.isDev = false :=
  ⟨(buildGraph_invariants exManifest hoistLock hoistGraph rfl).1,
   (buildGraph_invariants exManifest hoistLock hoistGraph rfl).2.1⟩

/-- C9: every non-root node's name is the substring of its path after
the last `/`, hence contains no `/`; consequently a name-based graph
lookup for a scoped identifier such as `@angular/core` can match no
node built from a lockfile entry (only possibly the manifest-named
root). -/
theorem scoped_name_truncation (pj : ManifestDoc) (ld : LockfileDoc)
    (g : DependencyGraph) (h : buildGraph pj ld = Except.ok g) :
    (∀ k n, mapGet g.allNodes k = some n → k ≠ "" →
      n.name = lastSegment k ∧ ∀ c ∈ n.name.data, c ≠ '/') ∧
    (∀ pkg, (∃ c ∈ pkg.data, c = '/') →
      ∀ n ∈ findAllVersionsOfPackage g pkg, n.path = "") := by
  have hshape := build_mem_shape pj ld g h
  constructor
  · intro k n hk hne
    rcases hshape (k, n) (mapGet_mem hk) with ⟨e, he⟩
    simp only at he
    have hname : n.name = (mkNode pj k e).name := by rw [he]
    rw [mkNode_name pj e hne] at hname
    exact ⟨hname, by rw [hname]; exact lastSegment_no_slash k⟩
  · intro pkg hslash n hn
    rcases hslash with ⟨c, hc, hceq⟩
    unfold findAllVersionsOfPackage at hn
    rcases List.mem_map.mp hn with ⟨kv, hkv, hsnd⟩
    have hkv' := List.mem_filter.mp hkv
    have hnamr : kv.2.name = pkg := by
      have := hkv'.2
      simpa using this
    rcases hshape kv hkv'.1 with ⟨e, he⟩
    by_cases hne : kv.1 = ""
    · have hpath : n.path = kv.1 := by
        rw [← hsnd, he]
        exact mkNode_path pj kv.1 e
      rw [hpath, hne]
    · exfalso
      have hname2 : kv.2.name = lastSegment kv.1 := by
        rw [he]
        exact mkNode_name pj e hne
      have : c ∈ (lastSegment kv.1).data := by
        rw [← hname2, hnamr]
        exact hc
      exact lastSegment_no_slash kv.1 c this hceq

/-- Witness for C9: the scoped package installed at
`node_modules/@angular/core` gets the bare name `core`, and the
singleton collection for `@angular/core` matches no non-root node. -/
theorem scoped_name_truncation_witness :
    ((mapGet scopedGraph.allNodes "node_modules/@angular/core").getD
        emptyNode).name = "core" ∧
    ∀ n ∈ findAllVersionsOfPackage scopedGraph "@angular/core",
      n.path = "" := by
  constructor
  · have hm : mapGet scopedGraph.allNodes "node_modules/@angular/core" =
        some ((mapGet scopedGraph.allNodes
          "node_modules/@angular/core").getD emptyNode) := by decide
    have := (scoped_name_truncation exManifest scopedLock scopedGraph
      rfl).1 "node_modules/@angular/core" _ hm (by decide)
    rw [this.1]
    decide
  · exact (scoped_name_truncation exManifest scopedLock scopedGraph rfl).2
      "@angular/core" ⟨'/', by decide, rfl⟩

/-- C1 (bug evidence): in the spec's hoisting scenario the builder
finds nothing — the ancestor walk probes the malformed path
`a/node_modules/node_modules/c` instead of `a/node_modules/c`, so the
parent at `a/node_modules/b` is left with no child for `c` even though
`a/node_modules/c` is present. -/
theorem hoisting_search_misses_ancestor :
    buildGraph exManifest hoistLock = Except.ok hoistGraph ∧
    (mapGet hoistGraph.allNodes "a/node_modules/c").isSome = true ∧
    ((mapGet hoistGraph.allNodes "a/node_modules/b").getD
        emptyNode).dependencies = [("c", "^1.0.0")] ∧
    findChildNode "a/node_modules/b" "c" hoistGraph.allNodes = none ∧
    ((mapGet hoistGraph.allNodes "a/node_modules/b").getD
        emptyNode).childrenPaths = [] ∧
    hoistCandidates "a/node_modules/b" = [1] ∧
    hoistedPathAt (splitPath "a/node_modules/b") "c" 1 =
      "a/node_modules/node_modules/c" := by
  refine ⟨rfl, ?_, ?_, ?_, ?_, ?_, ?_⟩ <;> decide

/-! ## C10: termination of the statistics walk -/

/-- On the cyclic graph, the depth walk starting at either cycle node
exhausts any fuel. -/
theorem cyc_calc_none :
    ∀ fuel d,
      calculateMaxDepth cyclicGraph.allNodes fuel cycNodeA d = none ∧
      calculateMaxDepth cyclicGraph.allNodes fuel cycNodeB d = none := by
  intro fuel
  induction fuel with
  | zero => intro d; exact ⟨rfl, rfl⟩
  | succ f ih =>
      intro d
      constructor
      · rw [calculateMaxDepth]
        rw [show cycNodeA.childrenPaths = ["node_modules/b"] from by decide]
        rw [if_neg (by simp)]
        simp only [List.foldl_cons, List.foldl_nil]
        rw [show mapGet cyclicGraph.allNodes "node_modules/b" =
          some cycNodeB from by decide]
        simp only
        rw [(ih (d + 1)).2]
      · rw [calculateMaxDepth]
        rw [show cycNodeB.childrenPaths = ["node_modules/a"] from by decide]
        rw [if_neg (by simp)]
        simp only [List.foldl_cons, List.foldl_nil]
        rw [show mapGet cyclicGraph.allNodes "node_modules/a" =
          some cycNodeA from by decide]
        simp only
        rw [(ih (d + 1)).1]

theorem getGraphStats_cyclic_none :
    ∀ fuel, getGraphStats fuel cyclicGraph = none := by
  have hroot : ∀ f d,
      calculateMaxDepth cyclicGraph.allNodes f cyclicGraph.root d = none := by
    intro f
    cases f with
    | zero => intro d; rfl
    | succ f' =>
        intro d
        rw [calculateMaxDepth]
        rw [show cyclicGraph.root.childrenPaths = ["node_modules/a"] from
          by decide]
        rw [if_neg (by simp)]
        simp only [List.foldl_cons, List.foldl_nil]
        rw [show mapGet cyclicGraph.allNodes "node_modules/a" =
          some cycNodeA from by decide]
        simp only
        rw [(cyc_calc_none f' (d + 1)).1]
  intro fuel
  unfold getGraphStats
  rw [hroot fuel 0]
  rfl

/-- C10 counterexample: `buildGraph` produces the cyclic graph from
mutually dependent lockfile entries, and on it the statistics walk
returns for no amount of fuel (the source recursion never
terminates). -/
theorem getGraphStats_cycle_counterexample :
    buildGraph exManifest cyclicLock = Except.ok cyclicGraph ∧
    ¬ ∃ fuel, (getGraphStats fuel cyclicGraph).isSome = true := by
  refine ⟨rfl, ?_⟩
  rintro ⟨fuel, hf⟩
  rw [getGraphStats_cyclic_none fuel] at hf
  simp at hf

/-- The folding step of `calculateMaxDepth` preserves definedness when
every child resolves and recurses definedly. -/
theorem calc_foldl_isSome (m : List (String × PackageNode)) (f d : Nat)
    (paths : List String) (acc : Option Nat) (hacc : acc.isSome = true)
    (hch : ∀ q ∈ paths,
      ∃ c, mapGet m q = some c ∧
        ∀ d', (calculateMaxDepth m f c d').isSome = true) :
    (paths.foldl
      (fun acc childPath =>
        match acc, mapGet m childPath with
        | some best, some child =>
            match calculateMaxDepth m f child (d + 1) with
            | some childDepth => some (max best childDepth)
            | none => none
        | _, _ => none)
      acc).isSome = true := by
  induction paths generalizing acc with
  | nil => exact hacc
  | cons q qs ih =>
      rcases hch q (List.mem_cons_self _ _) with ⟨c, hc, hrec⟩
      rcases Option.isSome_iff_exists.mp hacc with ⟨best, hbest⟩
      rcases Option.isSome_iff_exists.mp (hrec (d + 1)) with ⟨cd, hcd⟩
      simp only [List.foldl_cons]
      rw [hbest, hc]
      simp only [hcd]
      exact ih (some (max best cd)) rfl
        (fun x hx => hch x (List.mem_cons_of_mem _ hx))

/-- C10 (amended): the depth walk, and hence `getGraphStats`, returns
for every node whose `children` relation admits a depth bound — in
particular for every graph whose reachable children edges are acyclic;
the cycle counterexample shows the unbounded case never returns. -/
theorem getGraphStats_terminates_of_bounded :
    (∀ (m : List (String × PackageNode)) (fuel : Nat) (node : PackageNode),
      BoundedDepth m node fuel →
      ∀ d, (calculateMaxDepth m fuel node d).isSome = true) ∧
    (∀ (g : DependencyGraph) (fuel : Nat),
      BoundedDepth g.allNodes g.root fuel →
      (getGraphStats fuel g).isSome = true) := by
  have main : ∀ (m : List (String × PackageNode)) (fuel : Nat)
      (node : PackageNode), BoundedDepth m node fuel →
      ∀ d, (calculateMaxDepth m fuel node d).isSome = true := by
    intro m fuel node h
    induction h with
    | mk hres hrec ih =>
        rename_i node f
        intro d
        rw [calculateMaxDepth]
        by_cases hnil : node.childrenPaths = []
        · rw [if_pos hnil]; rfl
        · rw [if_neg hnil]
          refine calc_foldl_isSome m f d node.childrenPaths (some d) rfl ?_
          intro q hq
          rcases Option.isSome_iff_exists.mp (hres q hq) with ⟨c, hc⟩
          exact ⟨c, hc, fun d' => ih q c hq hc d'⟩
  refine ⟨main, ?_⟩
  intro g fuel h
  unfold getGraphStats
  rcases Option.isSome_iff_exists.mp (main g.allNodes fuel g.root h 0) with
    ⟨v, hv⟩
  rw [hv]
  rfl

/-- Witness for C10's amended statement: the acyclic example graph is
depth-bounded and its statistics walk returns. -/
theorem getGraphStats_terminates_of_bounded_witness :
    (getGraphStats 1 hoistGraph).isSome = true := by
  refine getGraphStats_terminates_of_bounded.2 hoistGraph 1 ?_
  refine BoundedDepth.mk ?_ ?_
  · intro q hq
    rw [show hoistGraph.root.childrenPaths = ([] : List String) from
      by decide] at hq
    cases hq
  · intro q c hq
    rw [show hoistGraph.root.childrenPaths = ([] : List String) from
      by decide] at hq
    cases hq

/-! ## C5: duplicate-singleton conflicts -/

theorem findDuplicateSingletonConflicts_aux (reg : Registry)
    (g : DependencyGraph) (l : List String) (init : List Conflict) :
    l.foldl
      (fun conflicts p =>
        match singletonEntryConflict reg g p with
        | some c => conflicts ++ [c]
        | none => conflicts)
      init =
      init ++ l.flatMap (fun p => (singletonEntryConflict reg g p).toList) := by
  induction l generalizing init with
  | nil => simp
  | cons p ps ih =>
      simp only [List.foldl_cons, List.flatMap_cons]
      cases hf : singletonEntryConflict reg g p with
      | some c => simp only [hf]; rw [ih]; simp
      | none => simp only [hf]; rw [ih]; simp

theorem findDuplicateSingletonConflicts_eq (reg : Registry)
    (g : DependencyGraph) :
    findDuplicateSingletonConflicts reg g =
      SINGLETON_PACKAGES.flatMap
        (fun p => (singletonEntryConflict reg g p).toList) := by
  unfold findDuplicateSingletonConflicts
  rw [findDuplicateSingletonConflicts_aux]
  rfl

theorem singletonEntry_packageName (reg : Registry) (g : DependencyGraph)
    (p : String) (c : Conflict)
    (h : singletonEntryConflict reg g p = some c) : c.packageName = p := by
  simp only [singletonEntryConflict] at h
  by_cases h1 : (findAllVersionsOfPackage g p).length > 1
  · rw [if_pos h1] at h
    by_cases h2 : (singletonMajors g p).length > 1
    · rw [if_pos h2] at h
      simp only [Option.some.injEq] at h
      rw [← h]
    · rw [if_neg h2] at h; exact absurd h (by simp)
  · rw [if_neg h1] at h; exact absurd h (by simp)

theorem singletonEntry_parts (reg : Registry) (g : DependencyGraph)
    (p : String) (c : Conflict)
    (h : singletonEntryConflict reg g p = some c) :
    c.type = ConflictType.DuplicateSingleton ∧
      c.nodes = sortNodesByVersionDesc (findAllVersionsOfPackage g p) := by
  simp only [singletonEntryConflict] at h
  by_cases h1 : (findAllVersionsOfPackage g p).length > 1
  · rw [if_pos h1] at h
    by_cases h2 : (singletonMajors g p).length > 1
    · rw [if_pos h2] at h
      simp only [Option.some.injEq] at h
      rw [← h]
      exact ⟨rfl, rfl⟩
    · rw [if_neg h2] at h; exact absurd h (by simp)
  · rw [if_neg h1] at h; exact absurd h (by simp)

theorem singletonEntry_toList_length (reg : Registry) (g : DependencyGraph)
    (p : String) :
    (singletonEntryConflict reg g p).toList.length =
      if (findAllVersionsOfPackage g p).length > 1 ∧
          (singletonMajors g p).length > 1 then 1 else 0 := by
  simp only [singletonEntryConflict]
  by_cases h1 : (findAllVersionsOfPackage g p).length > 1
  · rw [if_pos h1]
    by_cases h2 : (singletonMajors g p).length > 1
    · rw [if_pos h2, if_pos ⟨h1, h2⟩]; rfl
    · rw [if_neg h2, if_neg (fun hc => h2 hc.2)]; rfl
  · rw [if_neg h1, if_neg (fun hc => h1 hc.1)]; rfl

theorem countP_flatMap_singleton (reg : Registry) (g : DependencyGraph)
    (name : String) (l : List String) (hnd : l.Nodup) (hmem : name ∈ l) :
    ((l.flatMap (fun p => (singletonEntryConflict reg g p).toList)).countP
        (fun c => c.packageName == name)) =
      (singletonEntryConflict reg g name).toList.length := by
  induction l with
  | nil => cases hmem
  | cons p ps ih =>
      rw [List.flatMap_cons, List.countP_append]
      by_cases hp : p = name
      · have hnot : name ∉ ps := by
          have hpnot := (List.nodup_cons.mp hnd).1
          rw [hp] at hpnot
          exact hpnot
        have head_eq : ((singletonEntryConflict reg g p).toList.countP
            (fun c => c.packageName == name)) =
            (singletonEntryConflict reg g p).toList.length := by
          apply List.countP_eq_length.mpr
          intro c hc
          cases hE : singletonEntryConflict reg g p with
          | none => rw [hE] at hc; cases hc
          | some c0 =>
              rw [hE] at hc
              simp only [Option.toList_some, List.mem_singleton] at hc
              rw [hc]
              have hpk := singletonEntry_packageName reg g p c0 hE
              simp [hpk, hp]
        have tail_eq : ((ps.flatMap
            (fun q => (singletonEntryConflict reg g q).toList)).countP
            (fun c => c.packageName == name)) = 0 := by
          apply List.countP_eq_zero.mpr
          intro c hc
          rcases List.mem_flatMap.mp hc with ⟨q, hq, hcq⟩
          cases hE : singletonEntryConflict reg g q with
          | none => rw [hE] at hcq; cases hcq
          | some c0 =>
              rw [hE] at hcq
              simp only [Option.toList_some, List.mem_singleton] at hcq
              rw [hcq]
              have hqk := singletonEntry_packageName reg g q c0 hE
              simp only [hqk, beq_iff_eq]
              intro habs
              exact hnot (habs ▸ hq)
        rw [head_eq, tail_eq, hp]
        omega
      · have hmem' : name ∈ ps := by
          rcases List.mem_cons.mp hmem with h | h
          · exact absurd h.symm hp
          · exact h
        have head_eq : ((singletonEntryConflict reg g p).toList.countP
            (fun c => c.packageName == name)) = 0 := by
          apply List.countP_eq_zero.mpr
          intro c hc
          cases hE : singletonEntryConflict reg g p with
          | none => rw [hE] at hc; cases hc
          | some c0 =>
              rw [hE] at hc
              simp only [Option.toList_some, List.mem_singleton] at hc
              rw [hc]
              have hpk := singletonEntry_packageName reg g p c0 hE
              simp only [hpk, beq_iff_eq]
              exact hp
        rw [head_eq, ih (List.nodup_cons.mp hnd).2 hmem']
        omega

theorem length_filterMap_of_isSome {α β : Type} (f : α → Option β)
    (l : List α) (h : ∀ a ∈ l, (f a).isSome = true) :
    (l.filterMap f).length = l.length := by
  induction l with
  | nil => rfl
  | cons a l ih =>
      rcases Option.isSome_iff_exists.mp (h a (List.mem_cons_self _ _)) with
        ⟨b, hb⟩
      rw [List.filterMap_cons, hb]
      simp only [List.length_cons]
      rw [ih (fun x hx => h x (List.mem_cons_of_mem _ hx))]

theorem jsSet_foldl_length {α : Type} [DecidableEq α] (l : List α)
    (acc : List α) :
    (l.foldl (fun acc x => if x ∈ acc then acc else acc ++ [x]) acc).length ≤
      acc.length + l.length := by
  induction l generalizing acc with
  | nil => simp
  | cons x xs ih =>
      simp only [List.foldl_cons]
      by_cases hx : x ∈ acc
      · rw [if_pos hx]
        calc _ ≤ acc.length + xs.length := ih acc
        _ ≤ acc.length + (x :: xs).length := by simp [Nat.le_succ]
      · rw [if_neg hx]
        calc _ ≤ (acc ++ [x]).length + xs.length := ih (acc ++ [x])
        _ = acc.length + (x :: xs).length := by
              simp only [List.length_append, List.length_cons,
                List.length_singleton, List.length_nil]
              omega

theorem jsSet_length_le {α : Type} [DecidableEq α] (l : List α) :
    (jsSet l).length ≤ l.length := by
  have := jsSet_foldl_length l []
  simpa using this

theorem insertNodeDesc_mem (n x : PackageNode) (l : List PackageNode) :
    x ∈ insertNodeDesc n l ↔ x = n ∨ x ∈ l := by
  induction l with
  | nil => simp [insertNodeDesc]
  | cons a l ih =>
      simp only [insertNodeDesc]
      by_cases hc : cmpSemVerStr n.version a.version = Ordering.gt
      · rw [if_pos hc]
        simp only [List.mem_cons]
      · rw [if_neg hc]
        simp only [List.mem_cons, ih]
        tauto

theorem insertNodeDesc_length (n : PackageNode) (l : List PackageNode) :
    (insertNodeDesc n l).length = l.length + 1 := by
  induction l with
  | nil => rfl
  | cons a l ih =>
      simp only [insertNodeDesc]
      by_cases hc : cmpSemVerStr n.version a.version = Ordering.gt
      · rw [if_pos hc]; simp
      · rw [if_neg hc]; simp [ih]

theorem sortNodesByVersionDesc_mem (l : List PackageNode)
    (x : PackageNode) : x ∈ sortNodesByVersionDesc l ↔ x ∈ l := by
  induction l with
  | nil => simp [sortNodesByVersionDesc]
  | cons a l ih =>
      simp only [sortNodesByVersionDesc, List.foldr_cons] at *
      rw [insertNodeDesc_mem, ih]
      exact (List.mem_cons).symm

theorem sortNodesByVersionDesc_length (l : List PackageNode) :
    (sortNodesByVersionDesc l).length = l.length := by
  induction l with
  | nil => rfl
  | cons a l ih =>
      simp only [sortNodesByVersionDesc, List.foldr_cons] at *
      rw [insertNodeDesc_length, ih]
      rfl

/-- C5: for a configured singleton name, one `DuplicateSingleton`
conflict listing all installed instances is emitted exactly when the
installed instances span more than one major version, and none
otherwise. -/
theorem duplicate_singleton_contract (reg : Registry)
    (g : DependencyGraph) (name : String)
    (hmem : name ∈ SINGLETON_PACKAGES)
    (hvalid : ∀ n ∈ findAllVersionsOfPackage g name,
      (parseSemVer n.version).isSome = true) :
    ((findDuplicateSingletonConflicts reg g).countP
        (fun c => c.packageName == name) =
      if 1 < (singletonMajors g name).length then 1 else 0) ∧
    (∀ c ∈ findDuplicateSingletonConflicts reg g, c.packageName = name →
      c.type = ConflictType.DuplicateSingleton ∧
      (∀ n, n ∈ c.nodes ↔ n ∈ findAllVersionsOfPackage g name) ∧
      c.nodes.length = (findAllVersionsOfPackage g name).length) := by
  have hnd : SINGLETON_PACKAGES.Nodup := by decide
  have hlenmaj : 1 < (singletonMajors g name).length →
      1 < (findAllVersionsOfPackage g name).length := by
    intro h
    have h1 : (singletonMajors g name).length ≤
        ((findAllVersionsOfPackage g name).filterMap
          (fun n => semverMajor n.version)).length := jsSet_length_le _
    have h2 : ((findAllVersionsOfPackage g name).filterMap
        (fun n => semverMajor n.version)).length =
        (findAllVersionsOfPackage g name).length := by
      apply length_filterMap_of_isSome
      intro n hn
      have := hvalid n hn
      simp only [semverMajor]
      cases hp : parseSemVer n.version with
      | none => rw [hp] at this; simp at this
      | some v => rfl
    omega
  constructor
  · rw [findDuplicateSingletonConflicts_eq,
      countP_flatMap_singleton reg g name SINGLETON_PACKAGES hnd hmem,
      singletonEntry_toList_length]
    by_cases h2 : 1 < (singletonMajors g name).length
    · rw [if_pos ⟨hlenmaj h2, h2⟩, if_pos h2]
    · rw [if_neg (fun hc => h2 hc.2), if_neg h2]
  · intro c hc hname
    rw [findDuplicateSingletonConflicts_eq] at hc
    rcases List.mem_flatMap.mp hc with ⟨p, hp, hcp⟩
    cases hE : singletonEntryConflict reg g p with
    | none => rw [hE] at hcp; cases hcp
    | some c0 =>
        rw [hE] at hcp
        simp only [Option.toList_some, List.mem_singleton] at hcp
        subst hcp
        have hpn : p = name := by
          rw [← hname]
          exact (singletonEntry_packageName reg g p c hE).symm
        subst hpn
        rcases singletonEntry_parts reg g p c hE with ⟨htype, hnodes⟩
        refine ⟨htype, ?_, ?_⟩
        · intro n
          rw [hnodes]
          exact sortNodesByVersionDesc_mem _ n
        · rw [hnodes]
          exact sortNodesByVersionDesc_length _

/-- Witness for C5 on the spec's example: `react` at `16.8.0`,
`17.0.0`, `17.0.2` yields exactly one conflict; three instances within
major 17 yield none. -/
theorem duplicate_singleton_contract_witness :
    (findDuplicateSingletonConflicts reactRegistry
        singletonDupGraph).countP (fun c => c.packageName == "react") = 1 ∧
    (findDuplicateSingletonConflicts reactRegistry
        singletonSameGraph).countP (fun c => c.packageName == "react") = 0 := by
  constructor
  · rw [(duplicate_singleton_contract reactRegistry singletonDupGraph
      "react" (by decide) (by decide)).1]
    decide
  · rw [(duplicate_singleton_contract reactRegistry singletonSameGraph
      "react" (by decide) (by decide)).1]
    decide

/-! ## C4: peer-dependency conflicts -/

theorem peer_inner_aux (reg : Registry) (g : DependencyGraph)
    (node : PackageNode) (pds : List (String × String))
    (init : List Conflict) :
    pds.foldl
      (fun cs pd =>
        match peerEntryConflict reg g node pd.1 pd.2 with
        | some c => cs ++ [c]
        | none => cs)
      init =
      init ++
        pds.flatMap
          (fun pd => (peerEntryConflict reg g node pd.1 pd.2).toList) := by
  induction pds generalizing init with
  | nil => simp
  | cons pd pds ih =>
      simp only [List.foldl_cons, List.flatMap_cons]
      cases hf : peerEntryConflict reg g node pd.1 pd.2 with
      | some c => simp only [hf]; rw [ih]; simp
      | none => simp only [hf]; rw [ih]; simp

theorem peer_outer_aux (reg : Registry) (g : DependencyGraph)
    (l : List (String × PackageNode)) (init : List Conflict) :
    l.foldl
      (fun conflicts kv =>
        if kv.1 = "" then conflicts
        else
          kv.2.peerDependencies.foldl
            (fun cs pd =>
              match peerEntryConflict reg g kv.2 pd.1 pd.2 with
              | some c => cs ++ [c]
              | none => cs)
            conflicts)
      init =
      init ++
        l.flatMap
          (fun kv =>
            if kv.1 = "" then []
            else
              kv.2.peerDependencies.flatMap
                (fun pd => (peerEntryConflict reg g kv.2 pd.1 pd.2).toList)) := by
  induction l generalizing init with
  | nil => simp
  | cons kv l ih =>
      simp only [List.foldl_cons, List.flatMap_cons]
      by_cases hk : kv.1 = ""
      · rw [if_pos hk, if_pos hk, ih]
        simp
      · rw [if_neg hk, if_neg hk, peer_inner_aux, ih]
        simp

/-- C4: the peer-dependency pass emits, per peer-dependency entry of
each non-root node, exactly one conflict when the located installed
peer does not satisfy the range (citing both nodes), exactly one
citing the requiring node alone when no instance exists, and none when
the installed peer satisfies the range. -/
theorem peer_dependency_contract (reg : Registry) (g : DependencyGraph) :
    findPeerDependencyConflicts reg g =
      g.allNodes.flatMap
        (fun kv =>
          if kv.1 = "" then []
          else
            kv.2.peerDependencies.flatMap
              (fun pd => (peerEntryConflict reg g kv.2 pd.1 pd.2).toList)) ∧
    (∀ node peerName range peer,
      findInstalledPeerDependency g peerName = some peer →
      (semverSatisfies peer.version range = true →
        peerEntryConflict reg g node peerName range = none) ∧
      (semverSatisfies peer.version range = false →
        ∃ c, peerEntryConflict reg g node peerName range = some c ∧
          c.type = ConflictType.PeerDependency ∧
          c.packageName = peerName ∧ c.nodes = [node, peer])) ∧
    (∀ node peerName range,
      findInstalledPeerDependency g peerName = none →
      ∃ c, peerEntryConflict reg g node peerName range = some c ∧
        c.type = ConflictType.PeerDependency ∧
        c.packageName = peerName ∧ c.nodes = [node]) := by
  refine ⟨?_, ?_, ?_⟩
  · unfold findPeerDependencyConflicts
    rw [peer_outer_aux]
    rfl
  · intro node peerName range peer hfound
    constructor
    · intro hsat
      unfold peerEntryConflict
      rw [hfound]
      simp only [hsat]
      rw [if_pos (by trivial)]
    · intro hsat
      unfold peerEntryConflict
      rw [hfound]
      simp only [hsat]
      rw [if_neg (by simp)]
      exact ⟨_, rfl, rfl, rfl, rfl⟩
  · intro node peerName range hfound
    unfold peerEntryConflict
    rw [hfound]
    exact ⟨_, rfl, rfl, rfl, rfl⟩

/-- Witness for C4 on the spec's example: `^17.0.0` against installed
`17.2.0` yields no conflict for the entry; against `18.0.0` exactly
one conflict citing both nodes; with no installed `react` a conflict
citing the requiring node only. -/
theorem peer_dependency_contract_witness :
    peerEntryConflict reactRegistry peerOkGraph appLibOkNode "react"
        "^17.0.0" = none ∧
    (∃ c, peerEntryConflict reactRegistry peerBadGraph appLibBadNode
        "react" "^17.0.0" = some c ∧
      c.type = ConflictType.PeerDependency ∧
      c.packageName = "react" ∧ c.nodes = [appLibBadNode, reactBadNode]) ∧
    (∃ c, peerEntryConflict reactRegistry peerMissingGraph
        appLibMissingNode "react" "^17.0.0" = some c ∧
      c.type = ConflictType.PeerDependency ∧
      c.packageName = "react" ∧ c.nodes = [appLibMissingNode]) := by
  refine ⟨?_, ?_, ?_⟩
  · exact ((peer_dependency_contract reactRegistry peerOkGraph).2.1
      appLibOkNode "react" "^17.0.0" reactOkNode (by decide)).1 (by decide)
  · exact ((peer_dependency_contract reactRegistry peerBadGraph).2.1
      appLibBadNode "react" "^17.0.0" reactBadNode (by decide)).2 (by decide)
  · exact (peer_dependency_contract reactRegistry peerMissingGraph).2.2
      appLibMissingNode "react" "^17.0.0" (by decide)

/-! ## C6: registry client cache behaviour -/

/-- C6: `getPackageInfo` is total (never throws past its boundary); a
404 yields `null` and caches nothing; any other non-success status or
network failure yields `null` and caches nothing; a success is cached
under the package name, and a subsequent call for the same name
returns the cached document without fetching. -/
theorem getPackageInfo_contract
    (cache : List (String × NpmPackageInfo)) (packageName : String) :
    (∀ info outcome, mapGet cache packageName = some info →
      getPackageInfo cache packageName outcome =
        { result := some info, cache := cache, fetched := false }) ∧
    (mapGet cache packageName = none →
      (getPackageInfo cache packageName FetchOutcome.notFound =
        { result := none, cache := cache, fetched := true }) ∧
      (∀ status, getPackageInfo cache packageName
          (FetchOutcome.httpError status) =
        { result := none, cache := cache, fetched := true }) ∧
      (getPackageInfo cache packageName FetchOutcome.networkError =
        { result := none, cache := cache, fetched := true }) ∧
      (∀ info,
        getPackageInfo cache packageName (FetchOutcome.success info) =
          { result := some info
            cache := mapSet cache packageName info
            fetched := true } ∧
        ∀ outcome2,
          getPackageInfo (mapSet cache packageName info) packageName
              outcome2 =
            { result := some info
              cache := mapSet cache packageName info
              fetched := false })) := by
  constructor
  · intro info outcome h
    unfold getPackageInfo
    rw [h]
  · intro h
    refine ⟨?_, ?_, ?_, ?_⟩
    · unfold getPackageInfo; rw [h]
    · intro status; unfold getPackageInfo; rw [h]
    · unfold getPackageInfo; rw [h]
    · intro info
      constructor
      · unfold getPackageInfo; rw [h]
      · intro outcome2
        unfold getPackageInfo
        rw [mapGet_mapSet_self]

/-- Witness for C6 with a concrete cache and document. -/
theorem getPackageInfo_contract_witness :
    getPackageInfo [] "react" (FetchOutcome.success reactInfo) =
      { result := some reactInfo
        cache := mapSet [] "react" reactInfo
        fetched := true } ∧
    getPackageInfo (mapSet [] "react" reactInfo) "react"
        FetchOutcome.networkError =
      { result := some reactInfo
        cache := mapSet [] "react" reactInfo
        fetched := false } ∧
    getPackageInfo [] "react" FetchOutcome.notFound =
      { result := none, cache := [], fetched := true } :=
  ⟨(((getPackageInfo_contract [] "react").2 rfl).2.2.2 reactInfo).1,
   (((getPackageInfo_contract [] "react").2 rfl).2.2.2 reactInfo).2
      FetchOutcome.networkError,
   ((getPackageInfo_contract [] "react").2 rfl).1⟩

/-! ## C7: suggestion engine conflict reporting -/

theorem resolveStep_snd_cases (reg : Registry)
    (acc : List PackageSuggestion × List String)
    (e : String × List String) :
    (resolveStep reg acc e).2 = acc.2 ∨
      (resolveStep reg acc e).2 =
        acc.2 ++ [peerConflictMessage e.1 e.2] := by
  unfold resolveStep
  split
  · split
    · right; rfl
    · split
      · left; rfl
      · left; rfl
  · left; rfl

theorem resolveStep_conflict (reg : Registry)
    (acc : List PackageSuggestion × List String)
    (e : String × List String) (h1 : 1 < e.2.length)
    (h2 : findCompatibleVersion reg e.1 e.2 = none) :
    (resolveStep reg acc e).2 = acc.2 ++ [peerConflictMessage e.1 e.2] := by
  unfold resolveStep
  rw [if_pos h1, h2]

theorem resolvePeer_snd_mono (reg : Registry)
    (entries : List (String × List String))
    (acc : List PackageSuggestion × List String) (msg : String)
    (h : msg ∈ acc.2) :
    msg ∈ (entries.foldl (resolveStep reg) acc).2 := by
  induction entries generalizing acc with
  | nil => exact h
  | cons e es ih =>
      simp only [List.foldl_cons]
      apply ih
      rcases resolveStep_snd_cases reg acc e with hc | hc
      · rw [hc]; exact h
      · rw [hc]; exact List.mem_append.mpr (Or.inl h)

theorem resolvePeer_msg_mem (reg : Registry)
    (entries : List (String × List String)) (peerName : String)
    (ranges : List String)
    (acc : List PackageSuggestion × List String)
    (hmem : (peerName, ranges) ∈ entries)
    (hlen : 1 < ranges.length)
    (hnone : findCompatibleVersion reg peerName ranges = none) :
    peerConflictMessage peerName ranges ∈
      (entries.foldl (resolveStep reg) acc).2 := by
  induction entries generalizing acc with
  | nil => cases hmem
  | cons e es ih =>
      rcases List.mem_cons.mp hmem with he | he
      · subst he
        simp only [List.foldl_cons]
        apply resolvePeer_snd_mono
        rw [resolveStep_conflict reg acc (peerName, ranges) hlen hnone]
        exact List.mem_append.mpr (Or.inr (List.mem_singleton.mpr rfl))
      · simp only [List.foldl_cons]
        exact ih _ he

/-- C7: when a peer name receives more than one distinct contributed
range and no registry version (checked newest to oldest) satisfies all
of them, the engine appends the conflict message naming the ranges and
reports `compatible = false` — it never silently picks a range; and an
empty suggestion list yields an empty install command. -/
theorem suggest_conflict_contract :
    (∀ (reg : Registry) (packageNames : List String) (peerName : String)
        (ranges : List String),
      (peerName, ranges) ∈
          (collectSuggestions reg packageNames).peerDependencyMap →
      1 < ranges.length →
      (∀ v ∈ getAvailableVersions reg peerName,
        ¬ (ranges.all (fun range => semverSatisfies v range) = true)) →
      peerConflictMessage peerName ranges ∈
          (suggestCompatiblePackages reg packageNames).conflicts ∧
        (suggestCompatiblePackages reg packageNames).compatible = false) ∧
    generateInstallCommand [] = "" ∧
    (∀ reg : Registry,
      (suggestCompatiblePackages reg []).installCommand = "") := by
  refine ⟨?_, rfl, fun reg => rfl⟩
  intro reg packageNames peerName ranges hmem hlen hnone
  have hfind : findCompatibleVersion reg peerName ranges = none := by
    unfold findCompatibleVersion
    exact List.find?_eq_none.mpr hnone
  have hmsg : peerConflictMessage peerName ranges ∈
      (resolvePeerConflicts reg
        (collectSuggestions reg packageNames).peerDependencyMap
        (collectSuggestions reg packageNames).suggestions).2 := by
    unfold resolvePeerConflicts
    exact resolvePeer_msg_mem reg _ peerName ranges _ hmem hlen hfind
  constructor
  · show peerConflictMessage peerName ranges ∈
      (collectSuggestions reg packageNames).conflicts ++
        (resolvePeerConflicts reg
          (collectSuggestions reg packageNames).peerDependencyMap
          (collectSuggestions reg packageNames).suggestions).2
    exact List.mem_append.mpr (Or.inr hmsg)
  · show decide
      (((collectSuggestions reg packageNames).conflicts ++
        (resolvePeerConflicts reg
          (collectSuggestions reg packageNames).peerDependencyMap
          (collectSuggestions reg packageNames).suggestions).2).length = 0) =
      false
    apply decide_eq_false
    intro habs
    have : (resolvePeerConflicts reg
        (collectSuggestions reg packageNames).peerDependencyMap
        (collectSuggestions reg packageNames).suggestions).2 = [] := by
      have hlen2 := List.length_append
        (collectSuggestions reg packageNames).conflicts
        (resolvePeerConflicts reg
          (collectSuggestions reg packageNames).peerDependencyMap
          (collectSuggestions reg packageNames).suggestions).2
      rw [habs] at hlen2
      have := Nat.eq_zero_of_add_eq_zero_left hlen2.symm
      exact List.length_eq_zero.mp this
    rw [this] at hmsg
    cases hmsg

/-- Witness for C7: requesting `alpha` (peer `react@^16.0.0`) and
`beta` (peer `react@^17.0.0`) yields the conflict message and
`compatible = false`. -/
theorem suggest_conflict_contract_witness :
    peerConflictMessage "react" ["^16.0.0", "^17.0.0"] ∈
        (suggestCompatiblePackages suggestRegistry
          ["alpha", "beta"]).conflicts ∧
      (suggestCompatiblePackages suggestRegistry
          ["alpha", "beta"]).compatible = false :=
  suggest_conflict_contract.1 suggestRegistry ["alpha", "beta"] "react"
    ["^16.0.0", "^17.0.0"] (by decide) (by decide) (by decide)

/-! ## C2: the solution-description round trip.  Engine lemmas. -/

theorem matchItems_lit_consume (l : List Char) (rest : List RItem)
    (cs : List Char) :
    matchItems (RItem.lit l :: rest) (l ++ cs) = matchItems rest cs := by
  simp only [matchItems]
  rw [List.take_left, if_pos rfl, List.drop_left]

theorem matchItems_lit_fail (l : List Char) (rest : List RItem)
    (cs : List Char) (h : cs.take l.length ≠ l) :
    matchItems (RItem.lit l :: rest) cs = none := by
  simp only [matchItems]
  rw [if_neg h]

theorem matchItems_ws_fail (rest : List RItem) (cs : List Char)
    (h : cs.takeWhile isWsChar = []) :
    matchItems (RItem.ws :: rest) cs = none := by
  simp only [matchItems]
  rw [h]
  rfl

theorem takeWhile_ws_nil (cs : List Char)
    (h : ∀ c ∈ cs.take 1, isWsChar c = false) :
    cs.takeWhile isWsChar = [] := by
  cases cs with
  | nil => rfl
  | cons a l =>
      have ha := h a (by simp)
      simp [List.takeWhile_cons, ha]

theorem matchItems_ws_single (rest : List RItem) (c : Char)
    (cs : List Char) (hc : isWsChar c = true)
    (hcs : cs.takeWhile isWsChar = []) :
    matchItems (RItem.ws :: rest) (c :: cs) = matchItems rest cs := by
  simp only [matchItems]
  have h1 : (c :: cs).takeWhile isWsChar = [c] := by
    simp [List.takeWhile_cons, hc, hcs]
  rw [h1]
  show firstSome (fun k => matchItems rest ((c :: cs).drop k)) (greedyKs 1) =
    matchItems rest cs
  rw [show greedyKs 1 = [1] from rfl]
  simp only [firstSome, List.drop_succ_cons, List.drop_zero]
  cases hm : matchItems rest cs with
  | some r => rfl
  | none => rfl

theorem matchItems_eos_cons (rest : List RItem) (c : Char)
    (cs : List Char) : matchItems (RItem.eos :: rest) (c :: cs) = none := by
  simp only [matchItems]
  rw [if_neg (by simp)]

theorem firstSome_first_success {α : Type} (f : Nat → Option α)
    (n k0 : Nat) (r : α) (h1 : 1 ≤ k0) (h2 : k0 ≤ n)
    (hfail : ∀ j, 1 ≤ j → j < k0 → f j = none) (hk : f k0 = some r) :
    firstSome f (lazyKs n) = some r := by
  have hn : n = (k0 - 1) + ((n - k0) + 1) := by omega
  rw [hn]
  unfold lazyKs
  rw [List.range_add, List.map_append, firstSome_append]
  have hfirst :
      firstSome f ((List.range (k0 - 1)).map (fun j => j + 1)) = none := by
    apply firstSome_all_none
    intro k hkm
    rcases List.mem_map.mp hkm with ⟨i, hi, hik⟩
    have hilt : i < k0 - 1 := List.mem_range.mp hi
    have : k = i + 1 := hik.symm
    subst this
    exact hfail (i + 1) (by omega) (by omega)
  rw [hfirst]
  rw [List.range_succ_eq_map]
  simp only [List.map_cons, List.map_map]
  have hk0 : k0 - 1 + 0 + 1 = k0 := by omega
  show (match f (k0 - 1 + 0 + 1) with
    | some r => some r
    | none =>
        firstSome f
          ((List.range (n - k0)).map
            ((fun j => j + 1) ∘ fun i => k0 - 1 + Nat.succ i))) = some r
  rw [hk0, hk]

theorem matchItems_lazyGroup_exact (rest : List RItem)
    (seg cs : List Char) (r : List (List Char)) (hne : seg ≠ [])
    (hdot : ∀ c ∈ seg, isDotChar c = true)
    (hfail : ∀ j, 1 ≤ j → j < seg.length →
      matchItems rest ((seg ++ cs).drop j) = none)
    (hsucc : matchItems rest cs = some r) :
    matchItems (RItem.lazyGroup :: rest) (seg ++ cs) = some (seg :: r) := by
  simp only [matchItems]
  have hlen : 0 < seg.length := List.length_pos.mpr hne
  apply firstSome_first_success _ ((seg ++ cs).length) seg.length
  · omega
  · rw [List.length_append]; omega
  · intro j hj1 hj2
    show (if ((seg ++ cs).take j).all isDotChar = true then
        (matchItems rest ((seg ++ cs).drop j)).map
          (fun gs => (seg ++ cs).take j :: gs)
      else none) = none
    by_cases hd : ((seg ++ cs).take j).all isDotChar = true
    · rw [if_pos hd, hfail j hj1 hj2]
      rfl
    · rw [if_neg hd]
  · show (if ((seg ++ cs).take seg.length).all isDotChar = true then
        (matchItems rest ((seg ++ cs).drop seg.length)).map
          (fun gs => (seg ++ cs).take seg.length :: gs)
      else none) = some (seg :: r)
    rw [List.take_left, List.drop_left, hsucc,
      if_pos (List.all_eq_true.mpr hdot)]
    rfl

theorem matchItems_lazyAny_exact (rest : List RItem) (seg cs : List Char)
    (r : List (List Char)) (hne : seg ≠ [])
    (hdot : ∀ c ∈ seg, isDotChar c = true)
    (hfail : ∀ j, 1 ≤ j → j < seg.length →
      matchItems rest ((seg ++ cs).drop j) = none)
    (hsucc : matchItems rest cs = some r) :
    matchItems (RItem.lazyAny :: rest) (seg ++ cs) = some r := by
  simp only [matchItems]
  have hlen : 0 < seg.length := List.length_pos.mpr hne
  apply firstSome_first_success _ ((seg ++ cs).length) seg.length
  · omega
  · rw [List.length_append]; omega
  · intro j hj1 hj2
    show (if ((seg ++ cs).take j).all isDotChar = true then
        matchItems rest ((seg ++ cs).drop j)
      else none) = none
    by_cases hd : ((seg ++ cs).take j).all isDotChar = true
    · rw [if_pos hd, hfail j hj1 hj2]
    · rw [if_neg hd]
  · show (if ((seg ++ cs).take seg.length).all isDotChar = true then
        matchItems rest ((seg ++ cs).drop seg.length)
      else none) = some r
    rw [List.take_left, List.drop_left, hsucc,
      if_pos (List.all_eq_true.mpr hdot)]

theorem matchItems_lazyGroup_eos (seg : List Char) (hne : seg ≠ [])
    (hdot : ∀ c ∈ seg, isDotChar c = true) :
    matchItems [RItem.lazyGroup, RItem.eos] seg = some [seg] := by
  have h := matchItems_lazyGroup_exact [RItem.eos] seg [] [] hne hdot
    (fun j hj1 hj2 => by
      rw [List.append_nil]
      cases hsd : seg.drop j with
      | nil =>
          exfalso
          have := List.length_drop j seg
          rw [hsd] at this
          simp at this
          omega
      | cons a tl => exact matchItems_eos_cons [] a tl)
    (by rfl)
  rw [List.append_nil] at h
  exact h

/-! ## C2: failure of the Upgrade/Downgrade template on `from`-free
input -/

theorem noSub_drop (w l : List Char) (k : Nat) (h : NoSub w l) :
    NoSub w (l.drop k) := by
  intro i
  rw [List.drop_drop]
  rw [Nat.add_comm k i]
  exact h (i + k)

theorem noSub_cons (w : List Char) (c : Char) (cs : List Char)
    (h : NoSub w (c :: cs)) : NoSub w cs := by
  intro i
  have := h (i + 1)
  simpa using this

theorem matchItems_ws_lit_none (w : List Char) (rest : List RItem)
    (cs : List Char) (h : NoSub w cs) :
    matchItems (RItem.ws :: RItem.lit w :: rest) cs = none := by
  simp only [matchItems]
  apply firstSome_all_none
  intro k hk
  show matchItems (RItem.lit w :: rest) (cs.drop k) = none
  exact matchItems_lit_fail w rest (cs.drop k) (h k)

theorem matchItems_lazyGroup_ws_lit_none (w : List Char)
    (rest : List RItem) (cs : List Char) (h : NoSub w cs) :
    matchItems (RItem.lazyGroup :: RItem.ws :: RItem.lit w :: rest) cs =
      none := by
  simp only [matchItems]
  apply firstSome_all_none
  intro k hk
  show (if (cs.take k).all isDotChar = true then
      (matchItems (RItem.ws :: RItem.lit w :: rest) (cs.drop k)).map
        (fun gs => cs.take k :: gs)
    else none) = none
  by_cases hd : (cs.take k).all isDotChar = true
  · rw [if_pos hd,
      matchItems_ws_lit_none w rest (cs.drop k) (noSub_drop w cs k h)]
    rfl
  · rw [if_neg hd]

theorem matchItems_upgradeTail_none (cs : List Char)
    (h : NoSub "from".data cs) : matchItems upgradeTail cs = none := by
  show matchItems
    (RItem.ws :: RItem.lazyGroup :: RItem.ws :: RItem.lit "from".data ::
      [RItem.ws, RItem.lazyAny, RItem.ws, RItem.lit "to".data, RItem.ws,
        RItem.lazyGroup, RItem.eos]) cs = none
  simp only [matchItems]
  apply firstSome_all_none
  intro k hk
  show matchItems
    (RItem.lazyGroup :: RItem.ws :: RItem.lit "from".data ::
      [RItem.ws, RItem.lazyAny, RItem.ws, RItem.lit "to".data, RItem.ws,
        RItem.lazyGroup, RItem.eos]) (cs.drop k) = none
  exact matchItems_lazyGroup_ws_lit_none "from".data _ (cs.drop k)
    (noSub_drop "from".data cs k h)

theorem matchUpgradeAt_none (cs : List Char) (h : NoSub "from".data cs) :
    matchUpgradeAt cs = none := by
  unfold matchUpgradeAt
  have hU : matchItems (RItem.lit "Upgrade".data :: upgradeTail) cs =
      none := by
    simp only [matchItems]
    by_cases ht : cs.take ("Upgrade".data).length = "Upgrade".data
    · rw [if_pos ht]
      exact matchItems_upgradeTail_none _ (noSub_drop _ _ _ h)
    · rw [if_neg ht]
  have hD : matchItems (RItem.lit "Downgrade".data :: upgradeTail) cs =
      none := by
    simp only [matchItems]
    by_cases ht : cs.take ("Downgrade".data).length = "Downgrade".data
    · rw [if_pos ht]
      exact matchItems_upgradeTail_none _ (noSub_drop _ _ _ h)
    · rw [if_neg ht]
  rw [hU, hD]

theorem searchUpgrade_none (cs : List Char) (h : NoSub "from".data cs) :
    searchUpgrade cs = none := by
  induction cs with
  | nil =>
      show matchUpgradeAt [] = none
      exact matchUpgradeAt_none [] h
  | cons c cs ih =>
      simp only [searchUpgrade]
      rw [matchUpgradeAt_none (c :: cs) h]
      exact ih (noSub_cons _ c cs h)

/-! ## C2: substring-freeness of concatenations -/

theorem noSub_small (w l : List Char) (hw : l.length < w.length) :
    NoSub w l := by
  intro i habs
  have hlen := congrArg List.length habs
  rw [List.length_take, List.length_drop] at hlen
  have h1 : min w.length (l.length - i) ≤ l.length - i := Nat.min_le_right _ _
  omega

theorem noSub_of_forall_range (w l : List Char) (hw : w ≠ [])
    (h : ∀ i ∈ List.range l.length, (l.drop i).take w.length ≠ w) :
    NoSub w l := by
  intro i
  by_cases hi : i < l.length
  · exact h i (List.mem_range.mpr hi)
  · intro habs
    rw [List.drop_eq_nil_of_le (by omega)] at habs
    simp at habs
    exact hw (habs.symm.symm)

theorem noSub_append (w xs ys : List Char)
    (hxs : NoSub w xs) (hys : NoSub w ys)
    (hsafe : (∃ c, ys.take 1 = [c] ∧ c ∉ w) ∨
      (∃ c, xs.getLast? = some c ∧ c ∉ w)) :
    NoSub w (xs ++ ys) := by
  intro i
  by_cases hile : xs.length ≤ i
  · rw [List.drop_append_eq_append_drop, List.drop_eq_nil_of_le hile,
      List.nil_append]
    exact hys (i - xs.length)
  · push_neg at hile
    rw [List.drop_append_of_le_length (le_of_lt hile)]
    by_cases hlong : w.length ≤ (xs.drop i).length
    · rw [List.take_append_of_le_length hlong]
      exact hxs i
    · push_neg at hlong
      rw [List.take_append_eq_append_take]
      intro habs
      have htake_all : (xs.drop i).take w.length = xs.drop i :=
        List.take_of_length_le (le_of_lt hlong)
      rw [htake_all] at habs
      have hdroplen : (xs.drop i).length = xs.length - i :=
        List.length_drop i xs
      rcases hsafe with ⟨c, hc1, hc2⟩ | ⟨c, hc1, hc2⟩
      · apply hc2
        have hcmem : c ∈ xs.drop i ++
            ys.take (w.length - (xs.drop i).length) := by
          apply List.mem_append_right
          cases ys with
          | nil => simp at hc1
          | cons y ytl =>
              have hy : y = c := by simpa using hc1
              cases hm : w.length - (xs.drop i).length with
              | zero => omega
              | succ m =>
                  rw [List.take_succ_cons]
                  rw [hy]
                  exact List.mem_cons_self _ _
        rw [habs] at hcmem
        exact hcmem
      · apply hc2
        have hne : xs.drop i ≠ [] := by
          intro hnil
          rw [hnil] at hdroplen
          simp at hdroplen
          omega
        have hlast : (xs.drop i).getLast? = some c := by
          have hsplit := List.take_append_drop i xs
          have := List.getLast?_append_of_ne_nil (xs.take i) hne
          rw [hsplit] at this
          rw [← this]
          exact hc1
        have hcmem : c ∈ xs.drop i := List.mem_of_mem_getLast? hlast
        have hcmem2 : c ∈ xs.drop i ++
            ys.take (w.length - (xs.drop i).length) :=
          List.mem_append_left _ hcmem
        rw [habs] at hcmem2
        exact hcmem2

/-! ## C2: the two templates parse back to package and version -/

theorem takeWhile_ws_nil_append (x y : List Char) (hx_ne : x ≠ [])
    (hx : ∀ c ∈ x, isWsChar c = false) :
    (x ++ y).takeWhile isWsChar = [] := by
  cases x with
  | nil => exact absurd rfl hx_ne
  | cons a l => simp [List.takeWhile_cons, hx a (List.mem_cons_self a l)]

theorem takeWhile_ws_nil_of_all (x : List Char) (hx_ne : x ≠ [])
    (hx : ∀ c ∈ x, isWsChar c = false) : x.takeWhile isWsChar = [] := by
  cases x with
  | nil => exact absurd rfl hx_ne
  | cons a l => simp [List.takeWhile_cons, hx a (List.mem_cons_self a l)]

theorem matchItems_ws_fail_drop (rest : List RItem) (x y : List Char)
    (j : Nat) (hj : j < x.length)
    (hx : ∀ c ∈ x, isWsChar c = false) :
    matchItems (RItem.ws :: rest) ((x ++ y).drop j) = none := by
  rw [List.drop_append_of_le_length (le_of_lt hj)]
  apply matchItems_ws_fail
  apply takeWhile_ws_nil_append
  · intro hnil
    have hlen := List.length_drop j x
    rw [hnil] at hlen
    simp at hlen
    omega
  · intro c hc
    exact hx c (List.mem_of_mem_drop hc)

theorem matchItems_ws_end (c : Char) (cs : List Char)
    (hc : isWsChar c = true) :
    matchItems [RItem.ws] (c :: cs) = some [] := by
  simp only [matchItems]
  have h1 : (c :: cs).takeWhile isWsChar = c :: cs.takeWhile isWsChar := by
    simp [List.takeWhile_cons, hc]
  rw [h1, List.length_cons]
  unfold greedyKs
  rw [List.range_succ, List.reverse_append]
  simp only [List.reverse_singleton, List.singleton_append, List.map_cons]
  rfl

theorem matchItems_upgradeTail_template (name old new : List Char)
    (hn_ne : name ≠ [])
    (hn : ∀ c ∈ name, isWsChar c = false ∧ isDotChar c = true)
    (ho_ne : old ≠ [])
    (ho : ∀ c ∈ old, isWsChar c = false ∧ isDotChar c = true)
    (hv_ne : new ≠ [])
    (hv : ∀ c ∈ new, isWsChar c = false ∧ isDotChar c = true) :
    matchItems upgradeTail
      (' ' ::
        (name ++
          (' ' ::
            ("from".data ++
              (' ' ::
                (old ++
                  (' ' :: ("to".data ++ (' ' :: new))))))))) =
      some [name, new] := by
  rw [show upgradeTail =
    RItem.ws :: RItem.lazyGroup :: RItem.ws :: RItem.lit "from".data ::
      RItem.ws :: RItem.lazyAny :: RItem.ws :: RItem.lit "to".data ::
      RItem.ws :: [RItem.lazyGroup, RItem.eos] from rfl]
  rw [matchItems_ws_single _ ' ' _ (by decide)
    (takeWhile_ws_nil_append name _ hn_ne (fun c hc => (hn c hc).1))]
  refine matchItems_lazyGroup_exact _ name _ [new] hn_ne
    (fun c hc => (hn c hc).2) ?_ ?_
  · intro j hj1 hj2
    exact matchItems_ws_fail_drop _ name _ j hj2 (fun c hc => (hn c hc).1)
  · rw [matchItems_ws_single _ ' ' _ (by decide)
      (takeWhile_ws_nil_append "from".data _ (by decide) (by decide))]
    rw [matchItems_lit_consume "from".data _ _]
    rw [matchItems_ws_single _ ' ' _ (by decide)
      (takeWhile_ws_nil_append old _ ho_ne (fun c hc => (ho c hc).1))]
    refine matchItems_lazyAny_exact _ old _ [new] ho_ne
      (fun c hc => (ho c hc).2) ?_ ?_
    · intro j hj1 hj2
      exact matchItems_ws_fail_drop _ old _ j hj2 (fun c hc => (ho c hc).1)
    · rw [matchItems_ws_single _ ' ' _ (by decide)
        (takeWhile_ws_nil_append "to".data _ (by decide) (by decide))]
      rw [matchItems_lit_consume "to".data _ _]
      rw [matchItems_ws_single _ ' ' _ (by decide)
        (takeWhile_ws_nil_of_all new hv_ne (fun c hc => (hv c hc).1))]
      exact matchItems_lazyGroup_eos new hv_ne (fun c hc => (hv c hc).2)

theorem upgradeBody_eq (name old new : List Char) :
    "Upgrade".data ++
      (' ' ::
        (name ++
          (' ' ::
            ("from".data ++
              (' ' ::
                (old ++ (' ' :: ("to".data ++ (' ' :: new))))))))) =
    'U' :: 'p' :: 'g' :: 'r' :: 'a' :: 'd' :: 'e' ::
      (' ' ::
        (name ++
          (' ' ::
            ("from".data ++
              (' ' ::
                (old ++ (' ' :: ("to".data ++ (' ' :: new))))))))) := rfl

theorem matchUpgradeAt_template_U (name old new : List Char)
    (hn_ne : name ≠ [])
    (hn : ∀ c ∈ name, isWsChar c = false ∧ isDotChar c = true)
    (ho_ne : old ≠ [])
    (ho : ∀ c ∈ old, isWsChar c = false ∧ isDotChar c = true)
    (hv_ne : new ≠ [])
    (hv : ∀ c ∈ new, isWsChar c = false ∧ isDotChar c = true) :
    matchUpgradeAt
      ("Upgrade".data ++
        (' ' ::
          (name ++
            (' ' ::
              ("from".data ++
                (' ' ::
                  (old ++
                    (' ' :: ("to".data ++ (' ' :: new)))))))))) =
      some [name, new] := by
  unfold matchUpgradeAt
  rw [matchItems_lit_consume "Upgrade".data upgradeTail _]
  rw [matchItems_upgradeTail_template name old new hn_ne hn ho_ne ho
    hv_ne hv]

theorem matchUpgradeAt_template_D (name old new : List Char)
    (hn_ne : name ≠ [])
    (hn : ∀ c ∈ name, isWsChar c = false ∧ isDotChar c = true)
    (ho_ne : old ≠ [])
    (ho : ∀ c ∈ old, isWsChar c = false ∧ isDotChar c = true)
    (hv_ne : new ≠ [])
    (hv : ∀ c ∈ new, isWsChar c = false ∧ isDotChar c = true) :
    matchUpgradeAt
      ("Downgrade".data ++
        (' ' ::
          (name ++
            (' ' ::
              ("from".data ++
                (' ' ::
                  (old ++
                    (' ' :: ("to".data ++ (' ' :: new)))))))))) =
      some [name, new] := by
  unfold matchUpgradeAt
  rw [matchItems_lit_fail "Upgrade".data upgradeTail _ (by
    rw [List.take_append_of_le_length (by decide)]
    decide)]
  rw [matchItems_lit_consume "Downgrade".data upgradeTail _]
  rw [matchItems_upgradeTail_template name old new hn_ne hn ho_ne ho
    hv_ne hv]

theorem searchUpgrade_template_U (name old new : List Char)
    (hn_ne : name ≠ [])
    (hn : ∀ c ∈ name, isWsChar c = false ∧ isDotChar c = true)
    (ho_ne : old ≠ [])
    (ho : ∀ c ∈ old, isWsChar c = false ∧ isDotChar c = true)
    (hv_ne : new ≠ [])
    (hv : ∀ c ∈ new, isWsChar c = false ∧ isDotChar c = true) :
    searchUpgrade
      ("Upgrade".data ++
        (' ' ::
          (name ++
            (' ' ::
              ("from".data ++
                (' ' ::
                  (old ++
                    (' ' :: ("to".data ++ (' ' :: new)))))))))) =
      some [name, new] := by
  rw [upgradeBody_eq]
  simp only [searchUpgrade]
  rw [← upgradeBody_eq]
  rw [matchUpgradeAt_template_U name old new hn_ne hn ho_ne ho hv_ne hv]

theorem downgradeBody_eq (name old new : List Char) :
    "Downgrade".data ++
      (' ' ::
        (name ++
          (' ' ::
            ("from".data ++
              (' ' ::
                (old ++ (' ' :: ("to".data ++ (' ' :: new))))))))) =
    'D' :: 'o' :: 'w' :: 'n' :: 'g' :: 'r' :: 'a' :: 'd' :: 'e' ::
      (' ' ::
        (name ++
          (' ' ::
            ("from".data ++
              (' ' ::
                (old ++ (' ' :: ("to".data ++ (' ' :: new))))))))) := rfl

theorem searchUpgrade_template_D (name old new : List Char)
    (hn_ne : name ≠ [])
    (hn : ∀ c ∈ name, isWsChar c = false ∧ isDotChar c = true)
    (ho_ne : old ≠ [])
    (ho : ∀ c ∈ old, isWsChar c = false ∧ isDotChar c = true)
    (hv_ne : new ≠ [])
    (hv : ∀ c ∈ new, isWsChar c = false ∧ isDotChar c = true) :
    searchUpgrade
      ("Downgrade".data ++
        (' ' ::
          (name ++
            (' ' ::
              ("from".data ++
                (' ' ::
                  (old ++
                    (' ' :: ("to".data ++ (' ' :: new)))))))))) =
      some [name, new] := by
  rw [downgradeBody_eq]
  simp only [searchUpgrade]
  rw [← downgradeBody_eq]
  rw [matchUpgradeAt_template_D name old new hn_ne hn ho_ne ho hv_ne hv]

theorem matchItems_installPattern_template (name ver suffix : List Char)
    (hn_ne : name ≠ [])
    (hn : ∀ c ∈ name, isWsChar c = false ∧ isDotChar c = true ∧ c ≠ '@')
    (hv_ne : ver ≠ [])
    (hvr : ∀ c ∈ ver, isWsChar c = false ∧ isDotChar c = true)
    (hsuf : ∃ rest, suffix = ' ' :: rest) :
    matchItems installPattern
      ("Install".data ++ (' ' :: (name ++ ('@' :: (ver ++ suffix))))) =
      some [name, ver] := by
  rw [show installPattern =
    RItem.lit "Install".data :: RItem.ws :: RItem.lazyGroup ::
      RItem.lit "@".data :: RItem.lazyGroup :: [RItem.ws] from rfl]
  rw [matchItems_lit_consume "Install".data _ _]
  rw [matchItems_ws_single _ ' ' _ (by decide)
    (takeWhile_ws_nil_append name _ hn_ne (fun c hc => (hn c hc).1))]
  refine matchItems_lazyGroup_exact _ name _ [ver] hn_ne
    (fun c hc => (hn c hc).2.1) ?_ ?_
  · intro j hj1 hj2
    rw [List.drop_append_of_le_length (le_of_lt hj2)]
    apply matchItems_lit_fail
    cases hd : name.drop j with
    | nil =>
        exfalso
        have hlen := List.length_drop j name
        rw [hd] at hlen
        simp at hlen
        omega
    | cons a tl =>
        have ha : a ∈ name :=
          List.mem_of_mem_drop (n := j) (hd.symm ▸ List.mem_cons_self a tl)
        rw [show ("@" : String).data = ['@'] from rfl]
        intro habs
        have hae : a = '@' := by simpa using habs
        exact (hn a ha).2.2 hae
  · rw [show ('@' :: (ver ++ suffix)) = "@".data ++ (ver ++ suffix) from rfl]
    rw [matchItems_lit_consume "@".data _ _]
    refine matchItems_lazyGroup_exact _ ver _ [] hv_ne
      (fun c hc => (hvr c hc).2) ?_ ?_
    · intro j hj1 hj2
      exact matchItems_ws_fail_drop _ ver _ j hj2
        (fun c hc => (hvr c hc).1)
    · rcases hsuf with ⟨rest, hrest⟩
      rw [hrest]
      exact matchItems_ws_end ' ' rest (by decide)

theorem installBody_eq (name ver suffix : List Char) :
    "Install".data ++ (' ' :: (name ++ ('@' :: (ver ++ suffix)))) =
    'I' :: 'n' :: 's' :: 't' :: 'a' :: 'l' :: 'l' ::
      (' ' :: (name ++ ('@' :: (ver ++ suffix)))) := rfl

theorem searchInstall_template (name ver suffix : List Char)
    (hn_ne : name ≠ [])
    (hn : ∀ c ∈ name, isWsChar c = false ∧ isDotChar c = true ∧ c ≠ '@')
    (hv_ne : ver ≠ [])
    (hvr : ∀ c ∈ ver, isWsChar c = false ∧ isDotChar c = true)
    (hsuf : ∃ rest, suffix = ' ' :: rest) :
    searchInstall
      ("Install".data ++ (' ' :: (name ++ ('@' :: (ver ++ suffix))))) =
      some [name, ver] := by
  rw [installBody_eq]
  simp only [searchInstall]
  rw [← installBody_eq]
  rw [matchItems_installPattern_template name ver suffix hn_ne hn hv_ne
    hvr hsuf]

/-- The `Upgrade <pkg> from <old> to <new>` template parses back to
the package and the target version. -/
theorem parseSolutionDescription_upgrade (name old new : String)
    (hn : PlainStr name) (ho : PlainStr old) (hv : PlainStr new) :
    parseSolutionDescription
        ("Upgrade " ++ name ++ " from " ++ old ++ " to " ++ new) =
      some { packageName := name, newVersion := new, isDev := false } := by
  unfold parseSolutionDescription
  have hdata : ("Upgrade " ++ name ++ " from " ++ old ++ " to " ++ new).data =
      "Upgrade".data ++
        (' ' ::
          (name.data ++
            (' ' ::
              ("from".data ++
                (' ' ::
                  (old.data ++
                    (' ' :: ("to".data ++ (' ' :: new.data))))))))) := by
    simp only [String.data_append]
    simp [List.append_assoc, List.cons_append, List.nil_append]
  rw [hdata]
  rw [searchUpgrade_template_U name.data old.data new.data hn.1 hn.2
    ho.1 ho.2 hv.1 hv.2]

/-- The `Downgrade <pkg> from <old> to <new>` template parses back to
the package and the target version. -/
theorem parseSolutionDescription_downgrade (name old new : String)
    (hn : PlainStr name) (ho : PlainStr old) (hv : PlainStr new) :
    parseSolutionDescription
        ("Downgrade " ++ name ++ " from " ++ old ++ " to " ++ new) =
      some { packageName := name, newVersion := new, isDev := false } := by
  unfold parseSolutionDescription
  have hdata :
      ("Downgrade " ++ name ++ " from " ++ old ++ " to " ++ new).data =
      "Downgrade".data ++
        (' ' ::
          (name.data ++
            (' ' ::
              ("from".data ++
                (' ' ::
                  (old.data ++
                    (' ' :: ("to".data ++ (' ' :: new.data))))))))) := by
    simp only [String.data_append]
    simp [List.append_assoc, List.cons_append, List.nil_append]
  rw [hdata]
  rw [searchUpgrade_template_D name.data old.data new.data hn.1 hn.2
    ho.1 ho.2 hv.1 hv.2]

/-- The `Install <pkg>@<version> <suffix>` template parses back to the
package and the version, for any suffix opening with a space and any
name/version not containing the letters `from` as a substring (the
first, Upgrade/Downgrade, regex must fail on the whole string). -/
theorem parseSolutionDescription_install (name ver suffix : String)
    (hn : PlainStrNoAt name) (hv : PlainStr ver)
    (hnf : NoSub "from".data name.data)
    (hvf : NoSub "from".data ver.data)
    (hsuf1 : ∃ rest, suffix.data = ' ' :: rest)
    (hsuff : NoSub "from".data suffix.data) :
    parseSolutionDescription ("Install " ++ name ++ "@" ++ ver ++ suffix) =
      some { packageName := name, newVersion := ver, isDev := false } := by
  unfold parseSolutionDescription
  have hdata : ("Install " ++ name ++ "@" ++ ver ++ suffix).data =
      "Install".data ++
        (' ' :: (name.data ++ ('@' :: (ver.data ++ suffix.data)))) := by
    simp only [String.data_append]
    simp [List.append_assoc, List.cons_append, List.nil_append]
  rw [hdata]
  have hshape :
      "Install".data ++
        (' ' :: (name.data ++ ('@' :: (ver.data ++ suffix.data)))) =
      ("Install ".data ++ name.data) ++
        ('@' :: (ver.data ++ suffix.data)) := by
    simp [List.append_assoc, List.cons_append, List.nil_append]
  have hnosub : NoSub "from".data
      ("Install".data ++
        (' ' :: (name.data ++ ('@' :: (ver.data ++ suffix.data))))) := by
    rw [hshape]
    apply noSub_append
    · apply noSub_append
      · exact noSub_of_forall_range _ _ (by decide) (by decide)
      · exact hnf
      · right
        exact ⟨' ', by decide, by decide⟩
    · rw [show ('@' :: (ver.data ++ suffix.data)) =
        ['@'] ++ (ver.data ++ suffix.data) from rfl]
      apply noSub_append
      · exact noSub_small _ _ (by decide)
      · apply noSub_append
        · exact hvf
        · exact hsuff
        · left
          rcases hsuf1 with ⟨rest, hrest⟩
          exact ⟨' ', by rw [hrest]; rfl, by decide⟩
      · right
        exact ⟨'@', by decide, by decide⟩
    · left
      exact ⟨'@', rfl, by decide⟩
  rw [searchUpgrade_none _ hnosub]
  rw [searchInstall_template name.data ver.data suffix.data hn.1.1
    (fun c hc => ⟨(hn.1.2 c hc).1, (hn.1.2 c hc).2, hn.2 c hc⟩)
    hv.1 hv.2 hsuf1]

/-! ## C2: assembly -/

/-- C2 counterexample: the duplicate-singleton analyzer emits a
conflict whose every solution description (here `Consolidate to
react@17.0.2 (remove duplicates)`) matches neither recognized
template, so `parseSolutionDescription` returns `null` on all of them
— the claimed round trip fails for `DuplicateSingleton` conflicts. -/
theorem singleton_description_unparseable :
    findDuplicateSingletonConflicts reactRegistry singletonDupGraph ≠ [] ∧
    (∀ c ∈ findDuplicateSingletonConflicts reactRegistry singletonDupGraph,
      c.solutions ≠ [] ∧
      ∀ s ∈ c.solutions,
        parseSolutionDescription s.description = none) := by
  constructor
  · decide
  · decide

/-- C2 (amended): solution descriptions produced by the missing-peer
and peer-version-conflict generators follow the two recognized
templates and parse back to the peer's package name (for plain package
names and registry version strings — nonempty, no whitespace or line
terminators, no `@` in names, and not containing the letters `from`);
the duplicate-singleton generator's descriptions (`Consolidate to …`,
`Upgrade all instances to …`) match neither template and parse to
`null`, on which the caller must fall back to manual action;
`parseSolutionDescription` is total and returns `null` on non-template
strings. -/
theorem solution_description_round_trip :
    (∀ (reg : Registry) (peerName range : String),
      PlainStrNoAt peerName → NoSub "from".data peerName.data →
      (∀ v ∈ getAvailableVersions reg peerName,
        PlainStr v ∧ NoSub "from".data v.data) →
      (∀ v, getLatestVersion reg peerName = some v →
        PlainStr v ∧ NoSub "from".data v.data) →
      ∀ s ∈ generateMissingPeerSolutions reg peerName range,
        ∃ p, parseSolutionDescription s.description = some p ∧
          p.packageName = peerName) ∧
    (∀ (reg : Registry) (peerName range installedVersion : String),
      PlainStr peerName → PlainStr installedVersion →
      (∀ v ∈ getAvailableVersions reg peerName, PlainStr v) →
      ∀ s ∈ generatePeerVersionConflictSolutions reg peerName range
          installedVersion,
        ∃ p, parseSolutionDescription s.description = some p ∧
          p.packageName = peerName) ∧
    (∀ c ∈ findDuplicateSingletonConflicts reactRegistry singletonDupGraph,
      ∀ s ∈ c.solutions,
        parseSolutionDescription s.description = none) ∧
    parseSolutionDescription
      "Upgrade all instances to react@18.2.0 (latest available)" = none ∧
    parseSolutionDescription "no recognizable template here" = none := by
  refine ⟨?_, ?_, by decide, by decide, by decide⟩
  · intro reg peerName range hplain hnf hav hlat s hs
    simp only [generateMissingPeerSolutions] at hs
    have hinstall1 : ∀ v : String,
        v ∈ getAvailableVersions reg peerName →
        ∃ p, parseSolutionDescription
            ("Install " ++ peerName ++ "@" ++ v ++
              " (latest compatible version)") = some p ∧
          p.packageName = peerName := by
      intro v hval
      refine ⟨_, parseSolutionDescription_install peerName v
        " (latest compatible version)" hplain (hav v hval).1 hnf
        (hav v hval).2 ⟨_, rfl⟩
        (noSub_of_forall_range _ _ (by decide) (by decide)), rfl⟩
    have hinstall2 : ∀ v : String,
        getLatestVersion reg peerName = some v →
        ∃ p, parseSolutionDescription
            ("Install " ++ peerName ++ "@" ++ v ++
              " (latest version - may require updating dependent packages)") =
              some p ∧
          p.packageName = peerName := by
      intro v hval
      refine ⟨_, parseSolutionDescription_install peerName v
        " (latest version - may require updating dependent packages)"
        hplain (hlat v hval).1 hnf (hlat v hval).2 ⟨_, rfl⟩
        (noSub_of_forall_range _ _ (by decide) (by decide)), rfl⟩
    rcases hlatc : getLatestVersion reg peerName with _ | lv
    · rw [hlatc] at hs
      rcases hcompat : (getAvailableVersions reg peerName).filter
          (fun v => semverSatisfies v range) with _ | ⟨lc, rest⟩
      · rw [hcompat] at hs
        simp at hs
      · rw [hcompat] at hs
        simp only [List.mem_singleton] at hs
        subst hs
        apply hinstall1 lc
        have : lc ∈ (getAvailableVersions reg peerName).filter
            (fun v => semverSatisfies v range) := by
          rw [hcompat]; exact List.mem_cons_self _ _
        exact (List.mem_filter.mp this).1
    · rw [hlatc] at hs
      have hlcmem : ∀ lc rest,
          (getAvailableVersions reg peerName).filter
              (fun v => semverSatisfies v range) = lc :: rest →
          lc ∈ getAvailableVersions reg peerName := by
        intro lc rest hcompat
        have hmf : lc ∈ (getAvailableVersions reg peerName).filter
            (fun v => semverSatisfies v range) := by
          rw [hcompat]; exact List.mem_cons_self _ _
        exact (List.mem_filter.mp hmf).1
      rcases hcompat : (getAvailableVersions reg peerName).filter
          (fun v => semverSatisfies v range) with _ | ⟨lc, rest⟩
      · rw [hcompat] at hs
        simp at hs
        subst hs
        exact hinstall2 lv hlatc
      · rw [hcompat] at hs
        by_cases hcont : ((lc :: rest).contains lv) = true
        · simp only [hcont, not_true_eq_false, if_false] at hs
          simp at hs
          subst hs
          exact hinstall1 lc (hlcmem lc rest hcompat)
        · simp only [eq_false hcont, not_false_eq_true, if_true] at hs
          simp at hs
          rcases hs with hs | hs
          · subst hs
            exact hinstall1 lc (hlcmem lc rest hcompat)
          · subst hs
            exact hinstall2 lv hlatc
  · intro reg peerName range installedVersion hpn hiv hav s hs
    simp only [generatePeerVersionConflictSolutions] at hs
    rcases hcompat : (getAvailableVersions reg peerName).filter
        (fun v => semverSatisfies v range) with _ | ⟨lc, rest⟩
    · rw [hcompat] at hs
      simp at hs
    · rw [hcompat] at hs
      have hlc : PlainStr lc := by
        apply (hav lc _)
        have : lc ∈ (getAvailableVersions reg peerName).filter
            (fun v => semverSatisfies v range) := by
          rw [hcompat]; exact List.mem_cons_self _ _
        exact (List.mem_filter.mp this).1
      by_cases hgt : semverGtStr lc installedVersion = true
      · simp [hgt] at hs
        subst hs
        exact ⟨_, parseSolutionDescription_upgrade peerName
          installedVersion lc hpn hiv hlc, rfl⟩
      · by_cases hlt : semverLtStr lc installedVersion = true
        · simp [hgt, hlt] at hs
          subst hs
          exact ⟨_, parseSolutionDescription_downgrade peerName
            installedVersion lc hpn hiv hlc, rfl⟩
        · simp [hgt, hlt] at hs

/-- Witness for C2's amended statement: the missing-peer generator's
description for `react@^17.0.0` against the concrete registry parses
back to `react`. -/
theorem solution_description_round_trip_witness :
    ∃ p, parseSolutionDescription
        (Solution.description
          ⟨"Install react@17.0.2 (latest compatible version)"⟩) = some p ∧
      p.packageName = "react" := by
  have hmem :
      (⟨"Install react@17.0.2 (latest compatible version)"⟩ : Solution) ∈
        generateMissingPeerSolutions reactRegistry "react" "^17.0.0" := by
    decide
  have havail : getAvailableVersions reactRegistry "react" =
      ["17.0.2", "17.0.0", "16.14.0", "16.8.0"] := by decide
  refine solution_description_round_trip.1 reactRegistry "react" "^17.0.0"
    ⟨⟨by decide, by decide⟩, by decide⟩
    (noSub_of_forall_range _ _ (by decide) (by decide)) ?_ ?_ _ hmem
  · intro v hv
    rw [havail] at hv
    simp only [List.mem_cons, List.not_mem_nil, or_false] at hv
    rcases hv with hv | hv | hv | hv
    all_goals subst hv
    · exact ⟨⟨by decide, by decide⟩,
        noSub_of_forall_range _ _ (by decide) (by decide)⟩
    · exact ⟨⟨by decide, by decide⟩,
        noSub_of_forall_range _ _ (by decide) (by decide)⟩
    · exact ⟨⟨by decide, by decide⟩,
        noSub_of_forall_range _ _ (by decide) (by decide)⟩
    · exact ⟨⟨by decide, by decide⟩,
        noSub_of_forall_range _ _ (by decide) (by decide)⟩
  · intro v hv
    rw [show getLatestVersion reactRegistry "react" = some "17.0.2" from
      by decide] at hv
    have hveq : "17.0.2" = v := Option.some.inj hv
    subst hveq
    exact ⟨⟨by decide, by decide⟩,
      noSub_of_forall_range _ _ (by decide) (by decide)⟩

end DepsHarmony
